import Mathlib

/-!
A shallow embedding of `src/utils/dom.js` from the bookmarklets library:
functions for adding and removing DOM overlay elements over a page and its
same-origin iframes.

The DOM is modelled as a finite tree of elements.  Each element carries the
data the source observes: its tag name, class list, the computed style values
`display` and `visibility` (as read through `window.getComputedStyle`), the
attributes `hidden`, `aria-hidden`, `href`, `rel`, `type` and `title`
(`getAttribute` returns `Option String`: `none` models the JavaScript `null`),
and a node identity `eid` standing for JavaScript object identity (so that
`removeChild`, which compares node identity, can be modelled on a pure tree).

CSS selector strings are modelled modulo parsing: a well-formed selector is
an element-level predicate on element data and a malformed selector is the
distinguished value `Selector.malformed` (on which `querySelectorAll` raises
a syntax error, as in the DOM).  The selectors the source itself builds —
`"div." ++ cssClass` and `[href="…styles.css"]` — are embedded as the
corresponding predicates.

Exceptions are modelled with `Except DomError`; a thrown exception aborts the
current pass while the mutations already performed are kept, so the functions
return the partially mutated state alongside the error, exactly as a thrown
JavaScript exception leaves the live DOM mutated.

`createOverlay`, `addDragAndDrop` (from `overlay.js`) and `formatInfo` (from
`info.js`) are imported by `dom.js` but their sources are not part of this
repository snapshot; they are modelled from the spec where marked.
-/

/-- The data of one DOM element, as observed by `dom.js`. -/
structure ElemData where
  eid : Nat
  tag : String
  classes : List String
  display : String
  visibility : String
  hiddenAttr : Option String
  ariaHidden : Option String
  href : Option String
  relAttr : Option String
  typeAttr : Option String
  title : Option String
deriving Repr, DecidableEq

/-- A DOM element tree: element data plus the list of child elements. -/
inductive DomTree where
  | mk : ElemData → List DomTree → DomTree

/-- The data at the root of a tree. -/
def DomTree.data : DomTree → ElemData
  | .mk d _ => d

/-- The children of the root of a tree. -/
def DomTree.children : DomTree → List DomTree
  | .mk _ cs => cs

mutual

/-- All elements of a tree in document (pre-)order, each paired with its
ancestor chain (closest ancestor first); `anc` is the chain above the root. -/
def collect (anc : List ElemData) : DomTree → List (ElemData × List ElemData)
  | .mk d cs => (d, anc) :: collectList (d :: anc) cs

/-- `collect` over a forest, left to right. -/
def collectList (anc : List ElemData) : List DomTree → List (ElemData × List ElemData)
  | [] => []
  | t :: ts => collect anc t ++ collectList anc ts

end

/-- A document: `root` is its `firstElementChild` / `documentElement`
(`none` models a document with no element child). -/
structure Document where
  root : Option DomTree

/-- `document.firstElementChild`. -/
def Document.firstElementChild (doc : Document) : Option DomTree := doc.root

/-- All element/ancestor-chain pairs of a document in document order.  The
chain of the document's root element is `[]`: walking past it reaches the
document node itself. -/
def Document.collectPairs (doc : Document) : List (ElemData × List ElemData) :=
  match doc.root with
  | none => []
  | some r => collect [] r

/-- The element data of a document in document order. -/
def Document.datas (doc : Document) : List ElemData :=
  doc.collectPairs.map (fun x => x.1)

/-- `document.body`: the first child of the document element whose tag is
`"body"`. -/
def Document.body (doc : Document) : Option DomTree :=
  doc.root.bind (fun r => r.children.find? (fun c => c.data.tag == "body"))

/-- Whether `document.body` is non-null. -/
def Document.hasBody (doc : Document) : Bool := doc.body.isSome

/-- The children of `document.body` (`[]` when there is no body). -/
def Document.bodyChildren (doc : Document) : List DomTree :=
  match doc.body with
  | none => []
  | some b => b.children

/-- Replace the children of the first `"body"` child of the document element. -/
def mapFirstBody (f : List DomTree → List DomTree) : List DomTree → List DomTree
  | [] => []
  | c :: cs =>
    if c.data.tag == "body" then DomTree.mk c.data (f c.children) :: cs
    else c :: mapFirstBody f cs

/-- Replace the children of `document.body` in a document. -/
def Document.updateBody (doc : Document) (f : List DomTree → List DomTree) : Document :=
  match doc.root with
  | none => doc
  | some (.mk rd rcs) => ⟨some (.mk rd (mapFirstBody f rcs))⟩

/-- Errors thrown by the modelled operations. `nullDeref` stands for the
JavaScript `TypeError` raised on a null/undefined dereference, `syntaxError`
for the `SyntaxError` raised by a malformed selector, `notFound` for the DOM
`NotFoundError` of `removeChild`, and `callbackError` for an exception thrown
inside a caller-supplied callback. -/
inductive DomError where
  | nullDeref
  | syntaxError
  | notFound
  | callbackError
deriving Repr, DecidableEq

/-- A CSS selector string, modulo parsing: a well-formed selector is the
element-level predicate it denotes, a malformed one raises a syntax error
when used. -/
inductive Selector where
  | pred : (ElemData → Bool) → Selector
  | malformed

/-- The matches of an element predicate in a document, in document order,
paired with their ancestor chains. -/
def Document.matchesOf (doc : Document) (q : ElemData → Bool) :
    List (ElemData × List ElemData) :=
  doc.collectPairs.filter (fun x => q x.1)

/-- `doc.querySelectorAll(sel)`: document-order matches, or a syntax error on
a malformed selector. -/
def Document.querySelectorAll (doc : Document) (sel : Selector) :
    Except DomError (List (ElemData × List ElemData)) :=
  match sel with
  | .malformed => .error .syntaxError
  | .pred q => .ok (doc.matchesOf q)

/-- The predicate denoted by the selector string `"div." ++ cssClass` built
by `removeNodes`: a `div` element whose class list contains `cssClass`. -/
def classSelector (cssClass : String) (d : ElemData) : Bool :=
  d.tag == "div" && d.classes.contains cssClass

/-- The number of elements matching `"div." ++ cssClass` in a document. -/
def docClassCount (cssClass : String) (doc : Document) : Nat :=
  (doc.matchesOf (classSelector cssClass)).length

/-- The fixed stylesheet URL injected by `addNodes`. -/
def stylesheetURL : String := "https://accessibility-bookmarklets.org/build/styles.css"

/-- The predicate denoted by the selector `[href="…styles.css"]` used by the
stylesheet-injection step of `addNodes`. -/
def stylesheetPred (d : ElemData) : Bool := d.href == some stylesheetURL

/-- Whether `doc.querySelector('[href="…styles.css"]')` finds an element. -/
def Document.hasStylesheet (doc : Document) : Bool :=
  !(doc.matchesOf stylesheetPred).isEmpty

/-- The number of elements carrying the stylesheet `href` in a document. -/
def docLinkCount (doc : Document) : Nat := (doc.matchesOf stylesheetPred).length

/-- `isVisible`'s recursive ascent (`isVisibleRec` in the source): the
argument is the chain from the inspected element upward, closest first; the
empty chain is the document node, on which the walk returns `true`. -/
def isVisibleRec : List ElemData → Bool
  | [] => true
  | el :: rest =>
    if el.display == "none" || el.visibility == "hidden" ||
        el.hiddenAttr.isSome || el.ariaHidden == some "true" then false
    else isVisibleRec rest

/-- `isVisible(element)` for an element with ancestor chain `anc` inside a
document. -/
def isVisible (el : ElemData) (anc : List ElemData) : Bool :=
  isVisibleRec (el :: anc)

/-- Lowercase an ASCII letter, as `String.prototype.toLowerCase` does on the
characters appearing in tag names. -/
def lowerChar (c : Char) : Char :=
  if 'A' ≤ c && c ≤ 'Z' then Char.ofNat (c.toNat + 32) else c

/-- `s.toLowerCase()` on tag names (character-wise ASCII lowering). -/
def lowerString (s : String) : String := ⟨s.data.map lowerChar⟩

/-- `hasParentWithName(element, tagNames)`.  The first argument is
`element.parentElement` (`none` models null, on which the unguarded
dereference `element.parentElement.tagName` throws a `TypeError`). -/
def hasParentWithName (parentElement : Option ElemData) (tagNames : List String) :
    Except DomError Bool :=
  match parentElement with
  | none => .error .nullDeref
  | some p =>
    let parentTagName := lowerString p.tag
    if parentTagName ≠ "" then
      .ok (tagNames.any (fun name => parentTagName == name))
    else
      .ok false

/-- A target descriptor: a selector plus an optional filter predicate on the
matched element. -/
structure Target where
  selector : Selector
  filter : Option (ElemData → Bool)

/-- The caller-supplied callbacks of `addNodes`.  `getInfo` and `evalInfo`
may be absent (JavaScript `undefined`); either may throw.  `fmt` models the
external `formatInfo` from `info.js` (not part of this repository snapshot):
per the spec it formats the computed info into the overlay's tooltip text. -/
structure Callbacks (α : Type) where
  getInfo : Option (ElemData → Target → Except DomError α)
  evalInfo : Option (α → Target → Except DomError Unit)
  fmt : α → String

/-- The element data of the stylesheet `<link>` created by `addNodes`. -/
def linkElem (nid : Nat) : ElemData :=
  { eid := nid, tag := "link", classes := [], display := "none",
    visibility := "visible", hiddenAttr := none, ariaHidden := none,
    href := some stylesheetURL, relAttr := some "stylesheet",
    typeAttr := some "text/css", title := none }

/-- The stylesheet-injection step of `addNodes`, per document: if no element
with the stylesheet `href` exists, create the `<link>` and, when the document
has a first element child, prepend it there; `nid` is the supply of fresh
node identities. -/
def insertStylesheet (doc : Document) (nid : Nat) : Document × Nat :=
  if doc.hasStylesheet then (doc, nid)
  else
    let link := DomTree.mk (linkElem nid) []
    match doc.root with
    | none => (doc, nid + 1)
    | some (.mk rd rcs) => (⟨some (.mk rd (link :: rcs))⟩, nid + 1)

/-- The element data of the overlay node root.  Modelled from the spec:
`createOverlay` lives in `overlay.js`, which is not part of this repository
snapshot; per the spec it creates a positioned, visible `div` tagged with the
caller's marker class.  Geometry (the bounding rectangle) is not observable
in this model. -/
def overlayData (nid : Nat) (cssClass : String) : ElemData :=
  { eid := nid, tag := "div", classes := [cssClass], display := "block",
    visibility := "visible", hiddenAttr := none, ariaHidden := none,
    href := none, relAttr := none, typeAttr := none, title := none }

/-- The element data of the overlay's label node.  Modelled from the spec:
the overlay's first child is the label node whose `title` carries the
formatted info. -/
def labelData (nid : Nat) : ElemData :=
  { eid := nid, tag := "div", classes := [], display := "block",
    visibility := "visible", hiddenAttr := none, ariaHidden := none,
    href := none, relAttr := none, typeAttr := none, title := none }

/-- Modelled from the spec: `createOverlay(target, rect, cssClass, doc)` from
`overlay.js` (absent from this snapshot) creates an overlay `div` tagged with
`cssClass` whose first child is a label node; the target's data and the
rectangle only affect unobservable presentation. -/
def createOverlay (nid : Nat) (cssClass : String) : DomTree :=
  .mk (overlayData nid cssClass) [.mk (labelData (nid + 1)) []]

/-- Modelled from the spec: `addDragAndDrop` from `overlay.js` (absent from
this snapshot) attaches drag-and-drop event handlers to the overlay node;
event handlers are outside this data model, so the node is unchanged. -/
def addDragAndDrop (node : DomTree) : DomTree := node

/-- Set the `title` property of a node. -/
def setTitle (t : DomTree) (s : String) : DomTree :=
  match t with
  | .mk d cs => .mk { d with title := some s } cs

/-- `node.firstChild.title = s`: a `TypeError` when there is no first child. -/
def setFirstChildTitle (t : DomTree) (s : String) : Except DomError DomTree :=
  match t with
  | .mk _ [] => .error .nullDeref
  | .mk d (c :: cs) => .ok (.mk d (setTitle c s :: cs))

/-- `doc.body.appendChild(x)`: a `TypeError` when `doc.body` is null. -/
def Document.appendChildToBody (doc : Document) (x : DomTree) :
    Except DomError Document :=
  match doc.body with
  | none => .error .nullDeref
  | some b => .ok (doc.updateBody (fun _ => b.children ++ [x]))

/-- Remove the first child with identity `eid` from a child list; `none` when
no child has that identity. -/
def removeChildById (eid : Nat) : List DomTree → Option (List DomTree)
  | [] => none
  | c :: cs =>
    if c.data.eid == eid then some cs
    else (removeChildById eid cs).map (fun cs' => c :: cs')

/-- `doc.body.removeChild(el)` for the element with identity `eid`: a
`TypeError` when `doc.body` is null, a `NotFoundError` when the element is
not a child of the body. -/
def Document.removeChildFromBody (doc : Document) (eid : Nat) :
    Except DomError Document :=
  match doc.body with
  | none => .error .nullDeref
  | some b =>
    match removeChildById eid b.children with
    | none => .error .notFound
    | some cs' => .ok (doc.updateBody (fun _ => cs'))

/-- The state threaded through one document's `addNodes` pass: the document,
the overlay counter and the fresh-identity supply. -/
structure AddState where
  doc : Document
  counter : Nat
  nid : Nat

/-- The body of the innermost `elements.forEach` of `addNodes`, for one
element (with its ancestor chain): skip invisible elements; compute the info
(`getInfo` being undefined, or throwing, propagates); optionally run
`evalInfo`; create the overlay, optionally make it draggable, set its label's
tooltip and append it to the document body; then bump the counter. -/
def processElement {α : Type} (cb : Callbacks α) (dndFlag : Bool)
    (cssClass : String) (t : Target) (s : AddState) (el : ElemData × List ElemData) :
    AddState × Option DomError :=
  if !isVisible el.1 el.2 then (s, none)
  else
    match cb.getInfo with
    | none => (s, some .nullDeref)
    | some g =>
      match g el.1 t with
      | .error e => (s, some e)
      | .ok info =>
        let evalRes : Except DomError Unit :=
          match cb.evalInfo with
          | none => .ok ()
          | some ev => ev info t
        match evalRes with
        | .error e => (s, some e)
        | .ok _ =>
          let overlayNode := createOverlay s.nid cssClass
          let overlayNode := if dndFlag then addDragAndDrop overlayNode else overlayNode
          match setFirstChildTitle overlayNode (cb.fmt info) with
          | .error e => (s, some e)
          | .ok withTitle =>
            match s.doc.appendChildToBody withTitle with
            | .error e => (s, some e)
            | .ok doc' =>
              ({ doc := doc', counter := s.counter + 1, nid := s.nid + 2 }, none)

/-- The `elements.forEach` loop over the (snapshot) match list; a thrown
exception aborts the loop, keeping the mutations made so far. -/
def processElements {α : Type} (cb : Callbacks α) (dndFlag : Bool)
    (cssClass : String) (t : Target) :
    List (ElemData × List ElemData) → AddState → AddState × Option DomError
  | [], s => (s, none)
  | e :: es, s =>
    match processElement cb dndFlag cssClass t s e with
    | (s', none) => processElements cb dndFlag cssClass t es s'
    | (s', some err) => (s', some err)

/-- Apply `target.filter` when it is a function, as `addNodes` does. -/
def applyFilter (t : Target) (xs : List (ElemData × List ElemData)) :
    List (ElemData × List ElemData) :=
  match t.filter with
  | none => xs
  | some f => xs.filter (fun x => f x.1)

/-- The body of the `targetList.forEach` of `addNodes`, for one target:
select, filter, then process each element. -/
def processTarget {α : Type} (cb : Callbacks α) (dndFlag : Bool)
    (cssClass : String) (s : AddState) (t : Target) : AddState × Option DomError :=
  match t.selector with
  | .malformed => (s, some .syntaxError)
  | .pred q => processElements cb dndFlag cssClass t (applyFilter t (s.doc.matchesOf q)) s

/-- The `targetList.forEach` loop; a thrown exception aborts it. -/
def processTargets {α : Type} (cb : Callbacks α) (dndFlag : Bool)
    (cssClass : String) : List Target → AddState → AddState × Option DomError
  | [], s => (s, none)
  | t :: ts, s =>
    match processTarget cb dndFlag cssClass s t with
    | (s', none) => processTargets cb dndFlag cssClass ts s'
    | (s', some e) => (s', some e)

/-- One document's share of `addNodes`: stylesheet injection, then the target
loop.  Returns the mutated document, the number of overlays created in it,
the updated identity supply, and the exception that aborted the pass, if
any. -/
def addNodesDoc {α : Type} (doc : Document) (targetList : List Target)
    (cssClass : String) (cb : Callbacks α) (dndFlag : Bool) (nid : Nat) :
    Document × Nat × Nat × Option DomError :=
  let p1 := insertStylesheet doc nid
  let r := processTargets cb dndFlag cssClass targetList ⟨p1.1, 0, p1.2⟩
  (r.1.doc, r.1.counter, r.1.nid, r.2)

/-- A page: the top document plus, for each `iframe` element of the top
document in document order, the result of evaluating
`iframe.contentWindow.document` — `.error` models the security exception a
cross-origin iframe throws on that access. -/
structure Page where
  top : Document
  frames : List (Except DomError Document)

/-- `getAllDocuments()`: the top document plus the content document of every
iframe whose access succeeds; the `try`/`catch` in the source turns each
access failure into `null`, filtered out afterwards. -/
def getAllDocuments (p : Page) : List Document :=
  p.top :: p.frames.filterMap (fun f =>
    match f with
    | .ok d => some d
    | .error _ => none)

/-- The `getAllDocuments().forEach` of `addNodes` over the iframe documents,
threading the counter and identity supply; inaccessible frames contribute
nothing; a thrown exception aborts the loop, keeping prior mutations. -/
def addNodesFrames {α : Type} (targetList : List Target) (cssClass : String)
    (cb : Callbacks α) (dndFlag : Bool) :
    List (Except DomError Document) → Nat → Nat →
    List (Except DomError Document) × Nat × Nat × Option DomError
  | [], c, nid => ([], c, nid, none)
  | f :: fs, c, nid =>
    match f with
    | .error e =>
      let r := addNodesFrames targetList cssClass cb dndFlag fs c nid
      (.error e :: r.1, r.2.1, r.2.2.1, r.2.2.2)
    | .ok d =>
      let rd := addNodesDoc d targetList cssClass cb dndFlag nid
      match rd.2.2.2 with
      | some e => (.ok rd.1 :: fs, c + rd.2.1, rd.2.2.1, some e)
      | none =>
        let r := addNodesFrames targetList cssClass cb dndFlag fs (c + rd.2.1) rd.2.2.1
        (.ok rd.1 :: r.1, r.2.1, r.2.2.1, r.2.2.2)

/-- `addNodes(params)` over a page: for every reachable document, inject the
stylesheet and run the target loop; returns the page with all mutations
performed before any exception, and either the total overlay count or the
exception that propagated.  `nid` is the initial fresh-identity supply. -/
def addNodes {α : Type} (p : Page) (targetList : List Target) (cssClass : String)
    (cb : Callbacks α) (dndFlag : Bool) (nid : Nat) : Page × Except DomError Nat :=
  let rt := addNodesDoc p.top targetList cssClass cb dndFlag nid
  match rt.2.2.2 with
  | some e => ({ top := rt.1, frames := p.frames }, .error e)
  | none =>
    let rf := addNodesFrames targetList cssClass cb dndFlag p.frames rt.2.1 rt.2.2.1
    match rf.2.2.2 with
    | some e => ({ top := rt.1, frames := rf.1 }, .error e)
    | none => ({ top := rt.1, frames := rf.1 }, .ok rf.2.1)

/-- The removal loop of `removeNodes` over one document's (snapshot) match
list: each matched element is removed via `doc.body.removeChild`; a thrown
exception aborts the loop. -/
def removeLoop : List ElemData → Document → Document × Option DomError
  | [], doc => (doc, none)
  | e :: es, doc =>
    match doc.removeChildFromBody e.eid with
    | .ok doc' => removeLoop es doc'
    | .error err => (doc, some err)

/-- One document's share of `removeNodes(cssClass)`: select
`"div." ++ cssClass`, then remove each match from the document body. -/
def removeFromDoc (cssClass : String) (doc : Document) : Document × Option DomError :=
  removeLoop ((doc.matchesOf (classSelector cssClass)).map (fun x => x.1)) doc

/-- `removeNodes` over the iframe documents. -/
def removeFrames (cssClass : String) :
    List (Except DomError Document) →
    List (Except DomError Document) × Option DomError
  | [] => ([], none)
  | f :: fs =>
    match f with
    | .error e =>
      let r := removeFrames cssClass fs
      (.error e :: r.1, r.2)
    | .ok d =>
      match removeFromDoc cssClass d with
      | (d', none) =>
        let r := removeFrames cssClass fs
        (.ok d' :: r.1, r.2)
      | (d', some err) => (.ok d' :: fs, some err)

/-- `removeNodes(cssClass)` over a page: for every reachable document, remove
all `div.cssClass` elements from the document body; a thrown exception
aborts the pass, keeping prior removals. -/
def removeNodes (p : Page) (cssClass : String) : Page × Option DomError :=
  match removeFromDoc cssClass p.top with
  | (top', none) =>
    let r := removeFrames cssClass p.frames
    ({ top := top', frames := r.1 }, r.2)
  | (top', some e) => ({ top := top', frames := p.frames }, some e)

/-! ### Concrete fixtures used by witness theorems -/

/-- Element data with all signals clear, for building concrete documents. -/
def plainData (n : Nat) (tg : String) : ElemData :=
  { eid := n, tag := tg, classes := [], display := "block",
    visibility := "visible", hiddenAttr := none, ariaHidden := none,
    href := none, relAttr := none, typeAttr := none, title := none }

/-- A small top document: `html > head, body > p, p[aria-hidden=true]`. -/
def wTopDoc : Document :=
  ⟨some (.mk (plainData 0 "html")
    [ .mk (plainData 1 "head") [],
      .mk (plainData 2 "body")
        [ .mk (plainData 3 "p") [],
          .mk { plainData 4 "p" with ariaHidden := some "true" } [] ] ])⟩

/-- A small same-origin iframe document: `html > body > p`. -/
def wFrameDoc : Document :=
  ⟨some (.mk (plainData 10 "html")
    [ .mk (plainData 11 "body") [ .mk (plainData 12 "p") [] ] ])⟩

/-- A page with one inaccessible (cross-origin) iframe and one accessible
iframe. -/
def wPage : Page := ⟨wTopDoc, [.error .nullDeref, .ok wFrameDoc]⟩

/-- A target selecting `p` elements, with no filter. -/
def wTarget : Target := ⟨.pred (fun d => d.tag == "p"), none⟩

/-- Total callbacks: `getInfo` present and never throwing, no `evalInfo`. -/
def wCb : Callbacks Unit := ⟨some (fun _ _ => .ok ()), none, fun _ => "info"⟩

/-- A document with no element child at all. -/
def wRootless : Document := ⟨none⟩

/-! ### Derived notions used by the specification theorems -/

mutual

/-- The element data of a tree in document order. -/
def DomTree.datasOf : DomTree → List ElemData
  | .mk d cs => d :: datasListOf cs

/-- The element data of a forest in document order. -/
def datasListOf : List DomTree → List ElemData
  | [] => []
  | t :: ts => t.datasOf ++ datasListOf ts

end

/-- The number of elements of a document that match a target's selector, pass
its filter (when supplied) and are visible — the triples `addNodes` counts
for that document and target. -/
def visibleCount (t : Target) (doc : Document) : Nat :=
  match t.selector with
  | .malformed => 0
  | .pred q =>
    ((applyFilter t (doc.matchesOf q)).filter (fun x => isVisible x.1 x.2)).length

/-- `visibleCount` summed over a target list. -/
def totVis (ts : List Target) (doc : Document) : Nat :=
  (ts.map (fun t => visibleCount t doc)).sum

/-- `visibleCount` summed over all reachable documents and all targets. -/
def pageVisibleCount (ts : List Target) (p : Page) : Nat :=
  ((getAllDocuments p).map (totVis ts)).sum

/-- The number of `div.C` elements over all reachable documents. -/
def pageClassCount (C : String) (p : Page) : Nat :=
  ((getAllDocuments p).map (docClassCount C)).sum

/-- Every target's selector is well formed. -/
def WellFormedSelectors (ts : List Target) : Prop :=
  ∀ t ∈ ts, ∃ q, t.selector = Selector.pred q

/-- The label node's data once its tooltip has been set. -/
def labelTitled (nid : Nat) (s : String) : ElemData :=
  { labelData nid with title := some s }

/-- The overlay subtree exactly as it is inserted into a document body. -/
def titledOverlay (k : Nat) (C : String) (s : String) : DomTree :=
  .mk (overlayData k C) [.mk (labelTitled (k + 1) s) []]

/-- A selector predicate that matches none of the nodes `addNodes` inserts
(the stylesheet link, overlay roots of marker class `C`, and label nodes). -/
def InsertAvoiding (q : ElemData → Bool) (C : String) : Prop :=
  (∀ k, q (linkElem k) = false) ∧ (∀ k, q (overlayData k C) = false) ∧
  (∀ k s, q (labelTitled k s) = false)

/-- Every well-formed selector of the list avoids the inserted shapes. -/
def AvoidingSelectors (ts : List Target) (C : String) : Prop :=
  ∀ t ∈ ts, ∀ q, t.selector = Selector.pred q → InsertAvoiding q C

/-- The callbacks are present and never throw, for a given target. -/
def CbOkFor {α : Type} (cb : Callbacks α) (t : Target) : Prop :=
  (∃ g, cb.getInfo = some g ∧ ∀ d, ∃ i, g d t = Except.ok i) ∧
  (∀ ev, cb.evalInfo = some ev → ∀ i, ev i t = Except.ok ())

/-- The callbacks never throw on any target of the list. -/
def CbOkAll {α : Type} (cb : Callbacks α) (ts : List Target) : Prop :=
  ∀ t ∈ ts, CbOkFor cb t

/-- A document whose element children split at the first `"body"` child. -/
def BodySplit (doc : Document) (rd : ElemData) (pre : List DomTree)
    (bd : ElemData) (bcs post : List DomTree) : Prop :=
  doc.root = some (.mk rd (pre ++ .mk bd bcs :: post)) ∧
  (∀ c ∈ pre, (c.data.tag == "body") = false) ∧ (bd.tag == "body") = true

/-- A run of overlay subtrees whose identities consume exactly the supply
interval `[lo, hi)`, two per overlay, in increasing order. -/
inductive OverlaysBetween (C : String) : Nat → Nat → List DomTree → Prop where
  | nil : ∀ n, OverlaysBetween C n n []
  | cons : ∀ k hi s rest, OverlaysBetween C (k + 2) hi rest →
      OverlaysBetween C k hi (titledOverlay k C s :: rest)

/-- The effect of the stylesheet step on the pre-body children and the
identity supply: either nothing (stylesheet already present) or one link
prepended. -/
def PreLink (pre1 pre : List DomTree) (nid nid1 : Nat) : Prop :=
  (pre1 = pre ∧ nid1 = nid) ∨
  (pre1 = DomTree.mk (linkElem nid) [] :: pre ∧ nid1 = nid + 1)

/-- Sequential removal of body children by identity; `none` as soon as one
identity is not a child. -/
def removeIds : List Nat → List DomTree → Option (List DomTree)
  | [], cs => some cs
  | i :: is, cs =>
    match removeChildById i cs with
    | none => none
    | some cs' => removeIds is cs'

/-- Drop the `div.C` children of a document's body. -/
def bodyFilter (C : String) (doc : Document) : Document :=
  doc.updateBody (fun cs => cs.filter (fun c => !classSelector C c.data))

/-- Map a function over every document of a page (top and accessible
frames). -/
def pageMapDocs (f : Document → Document) (p : Page) : Page :=
  ⟨f p.top, p.frames.map (fun fr => fr.map f)⟩

/-- No element of the forest matches `q`. -/
def noMatchList (q : ElemData → Bool) (cs : List DomTree) : Bool :=
  (datasListOf cs).all (fun d => !q d)

/-- Matches of `q` occur only as roots of body children: the document element,
the pre-body and post-body children (with their subtrees), and the strict
subtrees of the body children are all `q`-free. -/
def RootsOnly (q : ElemData → Bool) (rd : ElemData) (pre : List DomTree)
    (bd : ElemData) (bcs post : List DomTree) : Prop :=
  q rd = false ∧ noMatchList q pre = true ∧ q bd = false ∧
  (∀ c ∈ bcs, noMatchList q c.children = true) ∧ noMatchList q post = true

/-- Per-document stylesheet bookkeeping of one `addNodes` pass: one link is
added exactly when none was present and the document has a root element. -/
def LinkStep (d d' : Document) : Prop :=
  docLinkCount d' =
    if !d.hasStylesheet && d.root.isSome then docLinkCount d + 1 else docLinkCount d

/-- Per-document equality of stylesheet-link counts. -/
def LinkEq (d d' : Document) : Prop := docLinkCount d' = docLinkCount d

/-- Lift a per-document relation to frame slots: inaccessible frames are
unchanged, accessible ones are related. -/
def FrameRel (R : Document → Document → Prop) :
    Except DomError Document → Except DomError Document → Prop
  | .error e, .error e' => e = e'
  | .ok d, .ok d' => R d d'
  | _, _ => False

/-- Lift a per-document relation to pages, document by document. -/
def DocsRel (R : Document → Document → Prop) (p p' : Page) : Prop :=
  R p.top p'.top ∧ List.Forall₂ (FrameRel R) p.frames p'.frames

/-! ### Further concrete fixtures for witnesses and counterexamples -/

/-- A document whose `div.mk` elements are one direct body child and one
nested inside a `section` (not a body child). -/
def w8Doc : Document :=
  ⟨some (.mk (plainData 0 "html")
    [ .mk (plainData 1 "body")
        [ .mk { plainData 2 "div" with classes := ["mk"] } [],
          .mk (plainData 3 "section")
            [ .mk { plainData 4 "div" with classes := ["mk"] } [] ] ] ])⟩

/-- A page whose only document is `w8Doc`. -/
def w8Page : Page := ⟨w8Doc, []⟩

/-- A page whose top document has no element child at all. -/
def w6Page : Page := ⟨wRootless, []⟩

/-- A target with a malformed selector string. -/
def wBadTarget : Target := ⟨.malformed, none⟩

/-- A target like `wTarget` but carrying a filter, used to trigger the
target-discriminating callback `w5Cb`. -/
def w5Bad : Target := ⟨.pred (fun d => d.tag == "p"), some (fun _ => true)⟩

/-- Callbacks whose `getInfo` throws exactly on targets that carry a filter. -/
def w5Cb : Callbacks Unit :=
  ⟨some (fun _ t => if t.filter.isSome then .error .callbackError else .ok ()),
   none, fun _ => "i"⟩

/-- A document with a root element and a visible `p`, but no body. -/
def w5NoBody : Document :=
  ⟨some (.mk (plainData 0 "html") [ .mk (plainData 1 "p") [] ])⟩

/-- Callbacks whose `evalInfo` throws exactly on targets that carry a
filter, while `getInfo` always succeeds. -/
def w5CbEval : Callbacks Unit :=
  ⟨some (fun _ _ => .ok ()),
   some (fun _ t => if t.filter.isSome then .error .callbackError else .ok ()),
   fun _ => "i"⟩

/-- A top document with a body but no `p` element at all. -/
def w5Top : Document :=
  ⟨some (.mk (plainData 20 "html")
    [ .mk (plainData 21 "body") [ .mk (plainData 22 "div") [] ] ])⟩

/-- A page whose failing document is an accessible iframe one: the top has
no `p`, the iframe document has a visible `p`. -/
def w5PageB : Page := ⟨w5Top, [.error .nullDeref, .ok wFrameDoc]⟩

/-- A page whose accessible iframe document lacks a body while the top is
ordinary. -/
def w5PageC : Page := ⟨wTopDoc, [.ok w5NoBody]⟩

/-- The overlays a completed per-document pass leaves behind: the `div.C`
count grew by exactly the document's visible-match total. -/
def AddedOverlays (C : String) (ts : List Target) (d d' : Document) : Prop :=
  docClassCount C d' = docClassCount C d + totVis ts d

/-- The document whose element children split as `pre ++ body bcs :: post`. -/
def splitDoc (rd : ElemData) (pre : List DomTree) (bd : ElemData)
    (bcs post : List DomTree) : Document :=
  ⟨some (.mk rd (pre ++ .mk bd bcs :: post))⟩

/-- No tree of the list is a `"body"` element. -/
def PreFree (pre : List DomTree) : Prop :=
  ∀ c ∈ pre, (c.data.tag == "body") = false

/-! ### Basic lemmas about the traversal -/

theorem collectList_append (anc : List ElemData) (xs ys : List DomTree) :
    collectList anc (xs ++ ys) = collectList anc xs ++ collectList anc ys := by
  induction xs with
  | nil => simp [collectList]
  | cons t ts ih => simp [collectList, ih]

mutual

theorem collect_map_fst (anc : List ElemData) (t : DomTree) :
    (collect anc t).map (fun x => x.1) = t.datasOf := by
  match t with
  | .mk d cs =>
    simp [collect, DomTree.datasOf, collectList_map_fst (d :: anc) cs]

theorem collectList_map_fst (anc : List ElemData) (cs : List DomTree) :
    (collectList anc cs).map (fun x => x.1) = datasListOf cs := by
  match cs with
  | [] => simp [collectList, datasListOf]
  | t :: ts =>
    simp [collectList, datasListOf, collect_map_fst anc t,
      collectList_map_fst anc ts]

end

theorem mem_collectList_fst {anc : List ElemData} {cs : List DomTree}
    {x : ElemData × List ElemData} (hx : x ∈ collectList anc cs) :
    x.1 ∈ datasListOf cs := by
  have := collectList_map_fst anc cs
  rw [← this]
  exact List.mem_map_of_mem _ hx

theorem collectList_filter_nil {q : ElemData → Bool} {cs : List DomTree}
    (h : noMatchList q cs = true) (anc : List ElemData) :
    (collectList anc cs).filter (fun x => q x.1) = [] := by
  rw [List.filter_eq_nil_iff]
  intro x hx
  have hmem := mem_collectList_fst hx
  have hall := List.all_eq_true.mp h x.1 hmem
  simp at hall
  simp [hall]

/-! ### C2: the visibility check -/

theorem isVisibleRec_eq_all (chain : List ElemData) :
    isVisibleRec chain = chain.all (fun d =>
      !(d.display == "none" || d.visibility == "hidden" ||
        d.hiddenAttr.isSome || d.ariaHidden == some "true")) := by
  induction chain with
  | nil => rfl
  | cons el rest ih =>
    unfold isVisibleRec
    rw [List.all_cons, ← ih]
    by_cases h : (el.display == "none" || el.visibility == "hidden" ||
        el.hiddenAttr.isSome || el.ariaHidden == some "true") = true
    · rw [if_pos h, h]
      rfl
    · simp only [Bool.not_eq_true] at h
      rw [if_neg (by simp [h]), h]
      rfl

theorem signalProp_iff (d : ElemData) :
    (d.display == "none" || d.visibility == "hidden" ||
      d.hiddenAttr.isSome || d.ariaHidden == some "true") = true ↔
    (d.display = "none" ∨ d.visibility = "hidden" ∨
      d.hiddenAttr ≠ none ∨ d.ariaHidden = some "true") := by
  simp only [Bool.or_eq_true, beq_iff_eq, Option.isSome_iff_ne_none]
  tauto

/-- C2: the visibility check returns false exactly when the element or one of
its ancestors up to the document root has computed `display` equal to
`"none"`, computed `visibility` equal to `"hidden"`, a `hidden` attribute
present, or `aria-hidden` equal to `"true"`; when none of the four signals
holds anywhere on the chain the walk reaches the document node and the check
returns true. -/
theorem claim_C2_isVisible (el : ElemData) (anc : List ElemData) :
    isVisible el anc = false ↔ ∃ d ∈ el :: anc,
      (d.display = "none" ∨ d.visibility = "hidden" ∨
        d.hiddenAttr ≠ none ∨ d.ariaHidden = some "true") := by
  rw [isVisible, isVisibleRec_eq_all, List.all_eq_false]
  constructor
  · rintro ⟨d, hd, hsig⟩
    refine ⟨d, hd, (signalProp_iff d).mp ?_⟩
    rcases Bool.eq_false_or_eq_true (d.display == "none" || d.visibility == "hidden" ||
        d.hiddenAttr.isSome || d.ariaHidden == some "true") with hb | hb
    · exact hb
    · exact absurd (by simp [hb]) hsig
  · rintro ⟨d, hd, hsig⟩
    refine ⟨d, hd, ?_⟩
    have hc := (signalProp_iff d).mpr hsig
    simp [hc]

/-! ### C4: document enumeration -/

theorem top_mem_getAllDocuments (p : Page) : p.top ∈ getAllDocuments p := by
  simp [getAllDocuments]

theorem mem_getAllDocuments_of_ok {p : Page} {d : Document}
    (h : Except.ok d ∈ p.frames) : d ∈ getAllDocuments p := by
  unfold getAllDocuments
  refine List.mem_cons_of_mem _ ?_
  exact List.mem_filterMap.mpr ⟨Except.ok d, h, rfl⟩

/-- C4: the document enumeration returns the top document plus the content
document of every iframe whose same-origin access succeeds; an iframe whose
document access throws contributes no document, and no error is surfaced (the
function returns a plain list, never an exception). -/
theorem claim_C4_getAllDocuments :
    (∀ (p : Page) (d : Document),
        d ∈ getAllDocuments p ↔ d = p.top ∨ Except.ok d ∈ p.frames) ∧
    (∀ (top : Document) (fs1 fs2 : List (Except DomError Document)) (e : DomError),
        getAllDocuments ⟨top, fs1 ++ Except.error e :: fs2⟩ =
          getAllDocuments ⟨top, fs1 ++ fs2⟩) := by
  constructor
  · intro p d
    constructor
    · intro h
      rcases List.mem_cons.mp h with h | h
      · exact Or.inl h
      · rcases List.mem_filterMap.mp h with ⟨f, hf, hfd⟩
        right
        cases f with
        | ok x => simp at hfd; subst hfd; exact hf
        | error e => simp at hfd
    · rintro (h | h)
      · subst h; exact top_mem_getAllDocuments p
      · exact mem_getAllDocuments_of_ok h
  · intro top fs1 fs2 e
    simp [getAllDocuments, List.filterMap_append]

/-! ### C10: hasParentWithName -/

/-- C10: `hasParentWithName` dereferences `element.parentElement` without a
guard, so it throws a `TypeError` when the parent is null instead of
returning false; when a parent exists (with a non-empty tag name, as DOM
elements always have), it returns true iff the parent's lowercased tag name
equals some entry of the tag-name list. -/
theorem claim_C10_hasParentWithName :
    (∀ tagNames : List String,
        hasParentWithName none tagNames = .error .nullDeref) ∧
    (∀ (p : ElemData) (tagNames : List String), lowerString p.tag ≠ "" →
        hasParentWithName (some p) tagNames =
          .ok (tagNames.any (fun name => lowerString p.tag == name))) := by
  constructor
  · intro tagNames; rfl
  · intro p tagNames h
    simp [hasParentWithName, h]

/-- Witness for C10 at concrete inputs: a parent tagged `DIV` against the
list `["div"]` yields `ok true`, a null parent yields the thrown error. -/
theorem claim_C10_witness :
    hasParentWithName (some (plainData 7 "DIV")) ["div"] = .ok true ∧
    hasParentWithName none ["div"] = .error .nullDeref := by
  constructor
  · have h := claim_C10_hasParentWithName.2 (plainData 7 "DIV") ["div"] (by decide)
    exact h.trans (congrArg Except.ok (by decide))
  · exact claim_C10_hasParentWithName.1 ["div"]

/-! ### C7: removeNodes without matches is a no-op -/

theorem removeFromDoc_nil {C : String} {doc : Document}
    (h : doc.matchesOf (classSelector C) = []) :
    removeFromDoc C doc = (doc, none) := by
  unfold removeFromDoc
  rw [h]
  rfl

theorem removeFrames_nil {C : String} {fs : List (Except DomError Document)}
    (h : ∀ d, Except.ok d ∈ fs → d.matchesOf (classSelector C) = []) :
    removeFrames C fs = (fs, none) := by
  induction fs with
  | nil => rfl
  | cons f fs ih =>
    have ih' := ih (fun d hd => h d (List.mem_cons_of_mem _ hd))
    cases f with
    | error e => simp [removeFrames, ih']
    | ok d =>
      have hd := removeFromDoc_nil (h d (List.mem_cons_self _ _))
      simp [removeFrames, hd, ih']

/-- C7: calling `removeNodes(C)` when no element matches `div.C` in any
reachable document raises no exception and leaves every document unchanged —
the whole page is returned as it was, so a second identical call is equally
a no-op. -/
theorem claim_C7_removeNodes_noop (p : Page) (C : String)
    (h : ∀ doc ∈ getAllDocuments p, doc.matchesOf (classSelector C) = []) :
    removeNodes p C = (p, none) := by
  have htop := removeFromDoc_nil (h p.top (top_mem_getAllDocuments p))
  have hfr := removeFrames_nil (fun d hd => h d (mem_getAllDocuments_of_ok hd))
  simp [removeNodes, htop, hfr]

/-- Witness for C7: on the concrete page `wPage`, which has no `div.zzz`
anywhere, `removeNodes` returns the page unchanged with no error. -/
theorem claim_C7_witness : removeNodes wPage "zzz" = (wPage, none) := by
  apply claim_C7_removeNodes_noop
  intro doc hdoc
  have h : getAllDocuments wPage = [wTopDoc, wFrameDoc] := rfl
  rw [h] at hdoc
  simp only [List.mem_cons, List.not_mem_nil, or_false] at hdoc
  rcases hdoc with rfl | rfl
  · rfl
  · rfl

/-! ### C9: a document with no element child gets no stylesheet, silently -/

theorem matchesOf_rootless {doc : Document} (h : doc.root = none)
    (q : ElemData → Bool) : doc.matchesOf q = [] := by
  simp [Document.matchesOf, Document.collectPairs, h]

theorem applyFilter_nil (t : Target) : applyFilter t [] = [] := by
  rcases ht : t.filter with _ | f <;> simp [applyFilter, ht]

theorem processTargets_rootless {α : Type} (cb : Callbacks α) (dnd : Bool)
    (C : String) (ts : List Target) (s : AddState) (hroot : s.doc.root = none)
    (hsel : WellFormedSelectors ts) :
    processTargets cb dnd C ts s = (s, none) := by
  induction ts with
  | nil => rfl
  | cons t ts ih =>
    obtain ⟨q, hq⟩ := hsel t (List.mem_cons_self _ _)
    have ih' := ih (fun t' ht' => hsel t' (List.mem_cons_of_mem _ ht'))
    have hpt : processTarget cb dnd C s t = (s, none) := by
      simp [processTarget, hq, matchesOf_rootless hroot, applyFilter_nil,
        processElements]
    simp [processTargets, hpt, ih']

/-- C9: on a reachable document with no first element child that lacks the
stylesheet, `addNodes` creates the link element (consuming one node
identity) but silently never inserts it: no exception is raised, the pass
continues normally, and the document is left unchanged — in particular
without the stylesheet. -/
theorem claim_C9_link_never_inserted {α : Type} (doc : Document)
    (ts : List Target) (C : String) (cb : Callbacks α) (dnd : Bool) (nid : Nat)
    (hroot : doc.root = none) (hsel : WellFormedSelectors ts) :
    addNodesDoc doc ts C cb dnd nid = (doc, 0, nid + 1, none) ∧
    docLinkCount doc = 0 := by
  have hm : doc.matchesOf stylesheetPred = [] := matchesOf_rootless hroot _
  have hss : doc.hasStylesheet = false := by
    simp [Document.hasStylesheet, hm]
  have hins : insertStylesheet doc nid = (doc, nid + 1) := by
    simp [insertStylesheet, hss, hroot]
  have hpt := processTargets_rootless cb dnd C ts ⟨doc, 0, nid + 1⟩ hroot hsel
  constructor
  · simp [addNodesDoc, hins, hpt]
  · simp [docLinkCount, hm]

/-- Witness for C9 at a concrete rootless document. -/
theorem claim_C9_witness :
    addNodesDoc wRootless [wTarget] "c" wCb false 5 = (wRootless, 0, 6, none) ∧
    docLinkCount wRootless = 0 :=
  claim_C9_link_never_inserted wRootless [wTarget] "c" wCb false 5 rfl
    (fun t ht => by
      simp only [List.mem_singleton] at ht
      subst ht
      exact ⟨_, rfl⟩)

/-! ### Decomposition of a document at its body -/

theorem find?_eq_some_split {α : Type} {p : α → Bool} {cs : List α} {b : α}
    (h : cs.find? p = some b) :
    ∃ pre post, cs = pre ++ b :: post ∧ ∀ c ∈ pre, p c = false := by
  induction cs with
  | nil => simp [List.find?] at h
  | cons c cs ih =>
    rcases hc : p c with _ | _
    · rw [List.find?_cons_of_neg _ (by simp [hc])] at h
      obtain ⟨pre, post, hcs, hpre⟩ := ih h
      refine ⟨c :: pre, post, by simp [hcs], ?_⟩
      intro x hx
      rcases List.mem_cons.mp hx with rfl | hx
      · exact hc
      · exact hpre x hx
    · rw [List.find?_cons_of_pos _ hc] at h
      obtain rfl := Option.some.inj h
      exact ⟨[], cs, rfl, by simp⟩

theorem find?_body (pre : List DomTree) (bd : ElemData) (bcs post : List DomTree)
    (hpre : PreFree pre) (hbd : (bd.tag == "body") = true) :
    (pre ++ DomTree.mk bd bcs :: post).find? (fun c => c.data.tag == "body") =
      some (DomTree.mk bd bcs) := by
  induction pre with
  | nil => simp [List.find?, DomTree.data, hbd]
  | cons c cs ih =>
    have hc := hpre c (List.mem_cons_self _ _)
    rw [List.cons_append, List.find?_cons_of_neg _ (by simp [hc])]
    exact ih (fun x hx => hpre x (List.mem_cons_of_mem _ hx))

theorem body_splitDoc {rd : ElemData} {pre : List DomTree} {bd : ElemData}
    {bcs post : List DomTree} (hpre : PreFree pre) (hbd : (bd.tag == "body") = true) :
    (splitDoc rd pre bd bcs post).body = some (DomTree.mk bd bcs) := by
  simp [splitDoc, Document.body, DomTree.children, find?_body pre bd bcs post hpre hbd]

theorem mapFirstBody_splitList {f : List DomTree → List DomTree}
    {pre : List DomTree} {bd : ElemData} {bcs post : List DomTree}
    (hpre : PreFree pre) (hbd : (bd.tag == "body") = true) :
    mapFirstBody f (pre ++ DomTree.mk bd bcs :: post) =
      pre ++ DomTree.mk bd (f bcs) :: post := by
  induction pre with
  | nil => simp [mapFirstBody, DomTree.data, hbd, DomTree.children]
  | cons c cs ih =>
    have hc := hpre c (List.mem_cons_self _ _)
    rw [List.cons_append, mapFirstBody, if_neg (by simp [hc])]
    rw [ih (fun x hx => hpre x (List.mem_cons_of_mem _ hx))]
    rfl

theorem updateBody_splitDoc {rd : ElemData} {pre : List DomTree} {bd : ElemData}
    {bcs post : List DomTree} {f : List DomTree → List DomTree}
    (hpre : PreFree pre) (hbd : (bd.tag == "body") = true) :
    (splitDoc rd pre bd bcs post).updateBody f = splitDoc rd pre bd (f bcs) post := by
  simp [splitDoc, Document.updateBody, mapFirstBody_splitList hpre hbd]

theorem appendChildToBody_splitDoc {rd : ElemData} {pre : List DomTree}
    {bd : ElemData} {bcs post : List DomTree} {x : DomTree}
    (hpre : PreFree pre) (hbd : (bd.tag == "body") = true) :
    (splitDoc rd pre bd bcs post).appendChildToBody x =
      .ok (splitDoc rd pre bd (bcs ++ [x]) post) := by
  unfold Document.appendChildToBody
  rw [body_splitDoc hpre hbd]
  simp [DomTree.children, updateBody_splitDoc hpre hbd]

theorem hasBody_splitDoc {doc : Document} (h : doc.hasBody = true) :
    ∃ rd pre bd bcs post, doc = splitDoc rd pre bd bcs post ∧
      PreFree pre ∧ (bd.tag == "body") = true := by
  unfold Document.hasBody Document.body at h
  rcases hroot : doc.root with _ | r
  · rw [hroot] at h; simp at h
  · rw [hroot] at h
    rcases r with ⟨rd, rcs⟩
    simp only [Option.bind_some, Option.isSome_iff_exists] at h
    obtain ⟨b, hb⟩ := h
    have hbp := List.find?_some hb
    obtain ⟨pre, post, hcs, hpre⟩ := find?_eq_some_split hb
    rcases b with ⟨bd, bcs⟩
    refine ⟨rd, pre, bd, bcs, post, ?_, hpre, hbp⟩
    have : doc = ⟨doc.root⟩ := rfl
    rw [this, hroot, DomTree.children] at *
    simp [splitDoc, hcs]

theorem collectPairs_splitDoc (rd : ElemData) (pre : List DomTree) (bd : ElemData)
    (bcs post : List DomTree) :
    (splitDoc rd pre bd bcs post).collectPairs =
      (rd, []) :: (collectList [rd] pre ++
        (((bd, [rd]) :: collectList [bd, rd] bcs) ++ collectList [rd] post)) := by
  simp [splitDoc, Document.collectPairs, collect, collectList_append, collectList]

theorem matchesOf_splitDoc (q : ElemData → Bool) (rd : ElemData)
    (pre : List DomTree) (bd : ElemData) (bcs post : List DomTree) :
    (splitDoc rd pre bd bcs post).matchesOf q =
      (if q rd then [((rd : ElemData), ([] : List ElemData))] else []) ++
      ((collectList [rd] pre).filter (fun x => q x.1) ++
        ((if q bd then [((bd : ElemData), [rd])] else []) ++
          ((collectList [bd, rd] bcs).filter (fun x => q x.1) ++
            (collectList [rd] post).filter (fun x => q x.1)))) := by
  unfold Document.matchesOf
  rw [collectPairs_splitDoc]
  simp only [List.filter_append, List.filter_cons]
  by_cases h : q rd = true
  · simp only [h, if_true]
    by_cases hb : q bd = true
    · simp [hb]
    · simp only [Bool.not_eq_true] at hb
      simp [hb]
  · simp only [Bool.not_eq_true] at h
    simp only [h, Bool.false_eq_true, if_false]
    by_cases hb : q bd = true
    · simp [hb]
    · simp only [Bool.not_eq_true] at hb
      simp [hb]

/-! ### Overlay runs -/

theorem datasListOf_append (xs ys : List DomTree) :
    datasListOf (xs ++ ys) = datasListOf xs ++ datasListOf ys := by
  induction xs with
  | nil => simp [datasListOf]
  | cons t ts ih => simp [datasListOf, ih]

theorem datasOf_titledOverlay (k : Nat) (C s : String) :
    (titledOverlay k C s).datasOf = [overlayData k C, labelTitled (k + 1) s] := by
  simp [titledOverlay, DomTree.datasOf, datasListOf]

theorem overlays_noMatch {C : String} {lo hi : Nat} {ovs : List DomTree}
    (h : OverlaysBetween C lo hi ovs) (q : ElemData → Bool)
    (hov : ∀ k, q (overlayData k C) = false)
    (hlab : ∀ k s, q (labelTitled k s) = false) :
    noMatchList q ovs = true := by
  induction h with
  | nil n => rfl
  | cons k hi s rest hr ih =>
    simp only [noMatchList, datasListOf, datasOf_titledOverlay, List.all_append,
      List.all_cons, List.all_nil, Bool.and_eq_true] at ih ⊢
    simp [hov, hlab, ih]

theorem ovb_le {C : String} {lo hi : Nat} {ovs : List DomTree}
    (h : OverlaysBetween C lo hi ovs) : lo ≤ hi := by
  induction h with
  | nil n => exact Nat.le_refl n
  | cons k hi s rest hr ih => omega

theorem ovb_append {C : String} {a b c : Nat} {xs ys : List DomTree}
    (hx : OverlaysBetween C a b xs) (hy : OverlaysBetween C b c ys) :
    OverlaysBetween C a c (xs ++ ys) := by
  induction hx with
  | nil n => simpa using hy
  | cons k hi s rest hr ih => exact .cons k c s _ (ih hy)

theorem ovb_length {C : String} {lo hi : Nat} {ovs : List DomTree}
    (h : OverlaysBetween C lo hi ovs) : hi = lo + 2 * ovs.length := by
  induction h with
  | nil n => simp
  | cons k hi s rest hr ih => simp [ih]; omega

theorem ovb_mem {C : String} {lo hi : Nat} {ovs : List DomTree}
    (h : OverlaysBetween C lo hi ovs) :
    ∀ x ∈ ovs, ∃ k s, x = titledOverlay k C s ∧ lo ≤ k ∧ k + 2 ≤ hi := by
  induction h with
  | nil n => simp
  | cons k hi s rest hr ih =>
    intro x hx
    rcases List.mem_cons.mp hx with rfl | hx
    · exact ⟨k, s, rfl, Nat.le_refl k, ovb_le hr⟩
    · obtain ⟨k', s', hx', hk1, hk2⟩ := ih x hx
      exact ⟨k', s', hx', by omega, hk2⟩

theorem ovb_eids_nodup {C : String} {lo hi : Nat} {ovs : List DomTree}
    (h : OverlaysBetween C lo hi ovs) :
    (ovs.map (fun c => c.data.eid)).Nodup := by
  induction h with
  | nil n => simp
  | cons k hi s rest hr ih =>
    simp only [List.map_cons, List.nodup_cons]
    refine ⟨?_, ih⟩
    intro hmem
    rcases List.mem_map.mp hmem with ⟨x, hx, hxk⟩
    obtain ⟨k', s', rfl, hk1, _⟩ := ovb_mem hr x hx
    have : (titledOverlay k C s).data.eid = k := rfl
    rw [this] at hxk
    have : (titledOverlay k' C s').data.eid = k' := rfl
    rw [this] at hxk
    omega

/-! ### Selector stability under the pass's insertions -/

theorem matchesOf_append_stable {q : ElemData → Bool} {rd : ElemData}
    {pre : List DomTree} {bd : ElemData} {bcs post ovs : List DomTree}
    (hnil : noMatchList q ovs = true) :
    (splitDoc rd pre bd (bcs ++ ovs) post).matchesOf q =
      (splitDoc rd pre bd bcs post).matchesOf q := by
  rw [matchesOf_splitDoc, matchesOf_splitDoc, collectList_append,
    List.filter_append, collectList_filter_nil hnil, List.append_nil]

theorem matchesOf_prepend_link {q : ElemData → Bool} {rd : ElemData}
    {pre : List DomTree} {bd : ElemData} {bcs post : List DomTree} {n : Nat}
    (hq : q (linkElem n) = false) :
    (splitDoc rd (DomTree.mk (linkElem n) [] :: pre) bd bcs post).matchesOf q =
      (splitDoc rd pre bd bcs post).matchesOf q := by
  rw [matchesOf_splitDoc, matchesOf_splitDoc]
  simp [collectList, collect, List.filter_append, List.filter_cons, hq]

theorem visibleCount_append_stable {C : String} {lo hi : Nat} {ovs : List DomTree}
    (hov : OverlaysBetween C lo hi ovs) {rd : ElemData} {pre : List DomTree}
    {bd : ElemData} {bcs post : List DomTree} (t : Target)
    (hq : ∀ q, t.selector = Selector.pred q → InsertAvoiding q C) :
    visibleCount t (splitDoc rd pre bd (bcs ++ ovs) post) =
      visibleCount t (splitDoc rd pre bd bcs post) := by
  unfold visibleCount
  rcases ht : t.selector with q | _
  · dsimp only
    obtain ⟨_, ho, hlab⟩ := hq q ht
    rw [matchesOf_append_stable (overlays_noMatch hov q ho hlab)]
  · rfl

theorem visibleCount_prelink_stable {pre1 pre : List DomTree} {nid nid1 : Nat}
    (hpl : PreLink pre1 pre nid nid1) {rd : ElemData} {bd : ElemData}
    {bcs post : List DomTree} (t : Target) {C : String}
    (hq : ∀ q, t.selector = Selector.pred q → InsertAvoiding q C) :
    visibleCount t (splitDoc rd pre1 bd bcs post) =
      visibleCount t (splitDoc rd pre bd bcs post) := by
  rcases hpl with ⟨rfl, _⟩ | ⟨rfl, _⟩
  · rfl
  · unfold visibleCount
    rcases ht : t.selector with q | _
    · dsimp only
      obtain ⟨hl, _, _⟩ := hq q ht
      rw [matchesOf_prepend_link (hl nid)]
    · rfl

theorem totVis_append_stable {C : String} {lo hi : Nat} {ovs : List DomTree}
    (hov : OverlaysBetween C lo hi ovs) {rd : ElemData} {pre : List DomTree}
    {bd : ElemData} {bcs post : List DomTree} {ts : List Target}
    (havoid : AvoidingSelectors ts C) :
    totVis ts (splitDoc rd pre bd (bcs ++ ovs) post) =
      totVis ts (splitDoc rd pre bd bcs post) := by
  unfold totVis
  congr 1
  apply List.map_congr_left
  intro t ht
  exact visibleCount_append_stable hov t (havoid t ht)

theorem totVis_prelink_stable {pre1 pre : List DomTree} {nid nid1 : Nat}
    (hpl : PreLink pre1 pre nid nid1) {rd : ElemData} {bd : ElemData}
    {bcs post : List DomTree} {ts : List Target} {C : String}
    (havoid : AvoidingSelectors ts C) :
    totVis ts (splitDoc rd pre1 bd bcs post) =
      totVis ts (splitDoc rd pre bd bcs post) := by
  unfold totVis
  congr 1
  apply List.map_congr_left
  intro t ht
  exact visibleCount_prelink_stable hpl t (havoid t ht)

/-! ### The element and target loops of addNodes -/

theorem processElement_invisible {α : Type} {cb : Callbacks α} {dnd : Bool}
    {C : String} {t : Target} {s : AddState} {el : ElemData × List ElemData}
    (hvis : isVisible el.1 el.2 = false) :
    processElement cb dnd C t s el = (s, none) := by
  simp [processElement, hvis]

theorem processElement_visible {α : Type} {cb : Callbacks α} {dnd : Bool}
    {C : String} {t : Target} (hcb : CbOkFor cb t) {s : AddState}
    {el : ElemData × List ElemData} (hvis : isVisible el.1 el.2 = true)
    {rd : ElemData} {pre : List DomTree} {bd : ElemData} {bcs post : List DomTree}
    (hdoc : s.doc = splitDoc rd pre bd bcs post)
    (hpre : PreFree pre) (hbd : (bd.tag == "body") = true) :
    ∃ str, processElement cb dnd C t s el =
      ({ doc := splitDoc rd pre bd (bcs ++ [titledOverlay s.nid C str]) post,
         counter := s.counter + 1, nid := s.nid + 2 }, none) := by
  obtain ⟨⟨g, hg, hgi⟩, hev⟩ := hcb
  obtain ⟨i, hi⟩ := hgi el.1
  refine ⟨cb.fmt i, ?_⟩
  have hevr : (match cb.evalInfo with
      | none => Except.ok ()
      | some ev => ev i t) = Except.ok () := by
    rcases he : cb.evalInfo with _ | ev
    · rfl
    · exact hev ev he i
  have happ : (splitDoc rd pre bd bcs post).appendChildToBody
      (titledOverlay s.nid C (cb.fmt i)) =
      .ok (splitDoc rd pre bd
        (bcs ++ [titledOverlay s.nid C (cb.fmt i)]) post) :=
    appendChildToBody_splitDoc hpre hbd
  simp only [processElement, hvis, Bool.not_true, Bool.false_eq_true, if_false,
    hg, hi, hevr, addDragAndDrop, ite_self]
  have hset : setFirstChildTitle (createOverlay s.nid C) (cb.fmt i) =
      .ok (titledOverlay s.nid C (cb.fmt i)) := rfl
  rw [hset, hdoc]
  dsimp only
  rw [happ]

theorem processElements_spec {α : Type} (cb : Callbacks α) (dnd : Bool)
    (C : String) (t : Target) (hcb : CbOkFor cb t) :
    ∀ (els : List (ElemData × List ElemData)) (s : AddState) (rd : ElemData)
      (pre : List DomTree) (bd : ElemData) (bcs post : List DomTree),
      s.doc = splitDoc rd pre bd bcs post → PreFree pre →
      (bd.tag == "body") = true →
      ∃ s' ovs, processElements cb dnd C t els s = (s', none) ∧
        OverlaysBetween C s.nid s'.nid ovs ∧
        ovs.length = (els.filter (fun e => isVisible e.1 e.2)).length ∧
        s'.counter = s.counter + ovs.length ∧
        s'.doc = splitDoc rd pre bd (bcs ++ ovs) post := by
  intro els
  induction els with
  | nil =>
    intro s rd pre bd bcs post hdoc hpre hbd
    exact ⟨s, [], rfl, .nil _, by simp, by simp, by simp [hdoc]⟩
  | cons e es ih =>
    intro s rd pre bd bcs post hdoc hpre hbd
    rcases hvis : isVisible e.1 e.2 with _ | _
    · have hpe : processElement cb dnd C t s e = (s, none) :=
        processElement_invisible hvis
      obtain ⟨s', ovs, hrun, hov, hlen, hcnt, hdoc'⟩ :=
        ih s rd pre bd bcs post hdoc hpre hbd
      refine ⟨s', ovs, ?_, hov, ?_, hcnt, hdoc'⟩
      · simp [processElements, hpe, hrun]
      · simp [List.filter_cons, hvis, hlen]
    · obtain ⟨str, hpe⟩ := processElement_visible hcb hvis hdoc hpre hbd
      obtain ⟨s', ovs, hrun, hov, hlen, hcnt, hdoc'⟩ :=
        ih ⟨splitDoc rd pre bd (bcs ++ [titledOverlay s.nid C str]) post,
            s.counter + 1, s.nid + 2⟩
          rd pre bd (bcs ++ [titledOverlay s.nid C str]) post rfl hpre hbd
      refine ⟨s', titledOverlay s.nid C str :: ovs, ?_, ?_, ?_, ?_, ?_⟩
      · simp only [processElements]
        rw [hpe]
        exact hrun
      · exact .cons s.nid s'.nid str ovs hov
      · simp only [List.filter_cons, hvis, if_true, List.length_cons,
          List.length_cons] at hlen ⊢
        omega
      · simp only [List.length_cons]
        simp at hcnt
        omega
      · rw [hdoc']
        simp

theorem processElements_none_visible {α : Type} {cb : Callbacks α} {dnd : Bool}
    {C : String} {t : Target} :
    ∀ (els : List (ElemData × List ElemData)) (s : AddState),
      (∀ e ∈ els, isVisible e.1 e.2 = false) →
      processElements cb dnd C t els s = (s, none) := by
  intro els
  induction els with
  | nil => intro s _; rfl
  | cons e es ih =>
    intro s hall
    have hpe : processElement cb dnd C t s e = (s, none) :=
      processElement_invisible (hall e (List.mem_cons_self _ _))
    simp only [processElements]
    rw [hpe]
    exact ih s (fun e' he' => hall e' (List.mem_cons_of_mem _ he'))

theorem processTargets_spec {α : Type} (cb : Callbacks α) (dnd : Bool)
    (C : String) :
    ∀ (ts : List Target) (s : AddState) (rd : ElemData) (pre : List DomTree)
      (bd : ElemData) (bcs post : List DomTree),
      s.doc = splitDoc rd pre bd bcs post → PreFree pre →
      (bd.tag == "body") = true →
      WellFormedSelectors ts → AvoidingSelectors ts C →
      (∀ t ∈ ts, CbOkFor cb t ∨ visibleCount t s.doc = 0) →
      ∃ s' ovs, processTargets cb dnd C ts s = (s', none) ∧
        OverlaysBetween C s.nid s'.nid ovs ∧
        s'.counter = s.counter + totVis ts s.doc ∧
        ovs.length = totVis ts s.doc ∧
        s'.doc = splitDoc rd pre bd (bcs ++ ovs) post := by
  intro ts
  induction ts with
  | nil =>
    intro s rd pre bd bcs post hdoc hpre hbd _ _ _
    exact ⟨s, [], rfl, .nil _, by simp [totVis], by simp [totVis], by simp [hdoc]⟩
  | cons t ts ih =>
    intro s rd pre bd bcs post hdoc hpre hbd hsel havoid hmix
    obtain ⟨q, hq⟩ := hsel t (List.mem_cons_self _ _)
    rcases hmix t (List.mem_cons_self _ _) with hcbt | hv0
    · obtain ⟨s1, ovs1, hrun1, hov1, hlen1, hcnt1, hdoc1⟩ :=
        processElements_spec cb dnd C t hcbt
          (applyFilter t (s.doc.matchesOf q)) s rd pre bd bcs post hdoc hpre hbd
      have hmix1 : ∀ t' ∈ ts, CbOkFor cb t' ∨ visibleCount t' s1.doc = 0 := by
        intro t' ht'
        rcases hmix t' (List.mem_cons_of_mem _ ht') with h | h
        · exact Or.inl h
        · right
          rw [hdoc1]
          rw [hdoc] at h
          rw [visibleCount_append_stable hov1 t'
            (havoid t' (List.mem_cons_of_mem _ ht'))]
          exact h
      obtain ⟨s', ovs2, hrun2, hov2, hcnt2, hlen2, hdoc2⟩ :=
        ih s1 rd pre bd (bcs ++ ovs1) post hdoc1 hpre hbd
          (fun t' ht' => hsel t' (List.mem_cons_of_mem _ ht'))
          (fun t' ht' => havoid t' (List.mem_cons_of_mem _ ht'))
          hmix1
      have hvc : ovs1.length = visibleCount t s.doc := by
        rw [hlen1]
        unfold visibleCount
        rw [hq]
      have hstab : totVis ts s1.doc = totVis ts s.doc := by
        rw [hdoc1, hdoc]
        exact totVis_append_stable hov1
          (fun t' ht' => havoid t' (List.mem_cons_of_mem _ ht'))
      refine ⟨s', ovs1 ++ ovs2, ?_, ovb_append hov1 hov2, ?_, ?_, ?_⟩
      · have hpt : processTarget cb dnd C s t = (s1, none) := by
          unfold processTarget
          rw [hq]
          exact hrun1
        simp only [processTargets]
        rw [hpt]
        exact hrun2
      · rw [hcnt2, hstab, hcnt1, hvc]
        simp only [totVis, List.map_cons, List.sum_cons]
        omega
      · rw [List.length_append, hlen2, hstab, hvc]
        simp only [totVis, List.map_cons, List.sum_cons]
      · rw [hdoc2]
        simp [List.append_assoc]
    · have hall : ∀ e ∈ applyFilter t (s.doc.matchesOf q),
          isVisible e.1 e.2 = false := by
        unfold visibleCount at hv0
        rw [hq] at hv0
        dsimp only at hv0
        rw [List.length_eq_zero] at hv0
        intro e he
        rcases hvi : isVisible e.1 e.2 with _ | _
        · rfl
        · exfalso
          have hmem : e ∈ (applyFilter t (s.doc.matchesOf q)).filter
              (fun x => isVisible x.1 x.2) := List.mem_filter.mpr ⟨he, hvi⟩
          rw [hv0] at hmem
          exact absurd hmem (List.not_mem_nil e)
      have hrun1 : processElements cb dnd C t
          (applyFilter t (s.doc.matchesOf q)) s = (s, none) :=
        processElements_none_visible _ s hall
      obtain ⟨s', ovs2, hrun2, hov2, hcnt2, hlen2, hdoc2⟩ :=
        ih s rd pre bd bcs post hdoc hpre hbd
          (fun t' ht' => hsel t' (List.mem_cons_of_mem _ ht'))
          (fun t' ht' => havoid t' (List.mem_cons_of_mem _ ht'))
          (fun t' ht' => hmix t' (List.mem_cons_of_mem _ ht'))
      refine ⟨s', ovs2, ?_, hov2, ?_, ?_, hdoc2⟩
      · have hpt : processTarget cb dnd C s t = (s, none) := by
          unfold processTarget
          rw [hq]
          exact hrun1
        simp only [processTargets]
        rw [hpt]
        exact hrun2
      · simp only [totVis, List.map_cons, List.sum_cons] at hcnt2 ⊢
        omega
      · simp only [totVis, List.map_cons, List.sum_cons] at hlen2 ⊢
        omega

/-! ### addNodes per document -/

theorem insertStylesheet_has {doc : Document} {nid : Nat}
    (h : doc.hasStylesheet = true) : insertStylesheet doc nid = (doc, nid) := by
  simp [insertStylesheet, h]

theorem insertStylesheet_splitDoc_not {rd : ElemData} {pre : List DomTree}
    {bd : ElemData} {bcs post : List DomTree} {nid : Nat}
    (h : (splitDoc rd pre bd bcs post).hasStylesheet = false) :
    insertStylesheet (splitDoc rd pre bd bcs post) nid =
      (splitDoc rd (DomTree.mk (linkElem nid) [] :: pre) bd bcs post, nid + 1) := by
  have h' : ({ root := some (DomTree.mk rd (pre ++ DomTree.mk bd bcs :: post)) } :
      Document).hasStylesheet = false := h
  simp [insertStylesheet, h', splitDoc]

theorem linkFree : ((DomTree.mk (linkElem 0) []).data.tag == "body") = false := rfl

theorem preFree_link {pre : List DomTree} {nid : Nat} (hpre : PreFree pre) :
    PreFree (DomTree.mk (linkElem nid) [] :: pre) := by
  intro c hc
  rcases List.mem_cons.mp hc with rfl | hc
  · rfl
  · exact hpre c hc

theorem addNodesDoc_spec {α : Type} (cb : Callbacks α) (dnd : Bool) (C : String)
    (ts : List Target) (doc : Document) (nid : Nat)
    (hbody : doc.hasBody = true) (hsel : WellFormedSelectors ts)
    (havoid : AvoidingSelectors ts C)
    (hmix : ∀ t ∈ ts, CbOkFor cb t ∨ visibleCount t doc = 0) :
    ∃ rd pre bd bcs post pre1 nid1 ovs nid',
      doc = splitDoc rd pre bd bcs post ∧ PreFree pre ∧
      (bd.tag == "body") = true ∧ PreLink pre1 pre nid nid1 ∧ PreFree pre1 ∧
      OverlaysBetween C nid1 nid' ovs ∧ nid ≤ nid1 ∧
      ovs.length = totVis ts doc ∧
      addNodesDoc doc ts C cb dnd nid =
        (splitDoc rd pre1 bd (bcs ++ ovs) post, totVis ts doc, nid', none) := by
  obtain ⟨rd, pre, bd, bcs, post, hdoc, hpre, hbd⟩ := hasBody_splitDoc hbody
  subst hdoc
  rcases hss : (splitDoc rd pre bd bcs post).hasStylesheet with _ | _
  · have hins : insertStylesheet (splitDoc rd pre bd bcs post) nid =
        (splitDoc rd (DomTree.mk (linkElem nid) [] :: pre) bd bcs post,
          nid + 1) :=
      insertStylesheet_splitDoc_not hss
    have hpre1 : PreFree (DomTree.mk (linkElem nid) [] :: pre) :=
      preFree_link hpre
    have hpl : PreLink (DomTree.mk (linkElem nid) [] :: pre) pre nid (nid + 1) :=
      Or.inr ⟨rfl, rfl⟩
    have hmix1 : ∀ t ∈ ts, CbOkFor cb t ∨ visibleCount t
        (splitDoc rd (DomTree.mk (linkElem nid) [] :: pre) bd bcs post) = 0 := by
      intro t ht
      refine (hmix t ht).imp id (fun h0 => ?_)
      rw [visibleCount_prelink_stable hpl t (havoid t ht)]
      exact h0
    obtain ⟨s', ovs, hrun, hov, hcnt, hlen, hdoc'⟩ :=
      processTargets_spec cb dnd C ts
        ⟨splitDoc rd (DomTree.mk (linkElem nid) [] :: pre) bd bcs post, 0, nid + 1⟩
        rd (DomTree.mk (linkElem nid) [] :: pre) bd bcs post rfl hpre1 hbd
        hsel havoid hmix1
    have hstab : totVis ts
        (splitDoc rd (DomTree.mk (linkElem nid) [] :: pre) bd bcs post) =
        totVis ts (splitDoc rd pre bd bcs post) :=
      totVis_prelink_stable hpl havoid
    refine ⟨rd, pre, bd, bcs, post, DomTree.mk (linkElem nid) [] :: pre, nid + 1,
      ovs, s'.nid, rfl, hpre, hbd, hpl, hpre1, hov, Nat.le_succ nid, ?_, ?_⟩
    · rw [hlen]
      exact hstab
    · simp only [addNodesDoc, hins]
      rw [hrun]
      simp only [hdoc', hcnt, hstab]
      simp
  · have hins : insertStylesheet (splitDoc rd pre bd bcs post) nid =
        (splitDoc rd pre bd bcs post, nid) := insertStylesheet_has hss
    obtain ⟨s', ovs, hrun, hov, hcnt, hlen, hdoc'⟩ :=
      processTargets_spec cb dnd C ts ⟨splitDoc rd pre bd bcs post, 0, nid⟩
        rd pre bd bcs post rfl hpre hbd hsel havoid hmix
    refine ⟨rd, pre, bd, bcs, post, pre, nid, ovs, s'.nid, rfl, hpre, hbd,
      Or.inl ⟨rfl, rfl⟩, hpre, hov, Nat.le_refl nid, hlen, ?_⟩
    simp only [addNodesDoc, hins]
    rw [hrun]
    simp only [hdoc', hcnt]
    simp

/-! ### Counting div.C matches across the pass -/

theorem collectList_overlays_classLen {C : String} {lo hi : Nat}
    {ovs : List DomTree} (hov : OverlaysBetween C lo hi ovs)
    (anc : List ElemData) :
    ((collectList anc ovs).filter (fun x => classSelector C x.1)).length =
      ovs.length := by
  induction hov with
  | nil n => simp [collectList]
  | cons k hi s rest hr ih =>
    have hovd : classSelector C (overlayData k C) = true := by
      simp [classSelector, overlayData]
    have hlab : classSelector C (labelTitled (k + 1) s) = false := by
      simp [classSelector, labelTitled, labelData]
    simp [collectList, collect, titledOverlay, List.filter_append,
      List.filter_cons, hovd, hlab, ih]

theorem docClassCount_after {C : String} {rd : ElemData}
    {pre pre1 : List DomTree} {bd : ElemData} {bcs post ovs : List DomTree}
    {nid nid1 lo hi : Nat} (hpl : PreLink pre1 pre nid nid1)
    (hov : OverlaysBetween C lo hi ovs) :
    docClassCount C (splitDoc rd pre1 bd (bcs ++ ovs) post) =
      docClassCount C (splitDoc rd pre bd bcs post) + ovs.length := by
  have hlink : ∀ n : Nat, classSelector C (linkElem n) = false := fun n => rfl
  unfold docClassCount
  rw [matchesOf_splitDoc, matchesOf_splitDoc, collectList_append,
    List.filter_append]
  rcases hpl with ⟨rfl, _⟩ | ⟨rfl, _⟩
  · simp only [List.length_cons, List.length_append,
      collectList_overlays_classLen hov]
    omega
  · simp [collectList, collect, List.filter_append, List.filter_cons, hlink,
      collectList_overlays_classLen hov]
    omega

/-! ### C1: the returned count -/

theorem addNodesFrames_spec {α : Type} (cb : Callbacks α) (dnd : Bool)
    (C : String) (ts : List Target) (hsel : WellFormedSelectors ts)
    (havoid : AvoidingSelectors ts C) :
    ∀ (fs : List (Except DomError Document)) (c nid : Nat),
      (∀ d, Except.ok d ∈ fs → d.hasBody = true ∧
        ∀ t ∈ ts, CbOkFor cb t ∨ visibleCount t d = 0) →
      ∃ fs' nid',
        addNodesFrames ts C cb dnd fs c nid =
          (fs', c + ((fs.filterMap (fun f =>
            match f with
            | .ok d => some d
            | .error _ => none)).map (totVis ts)).sum, nid', none) ∧
        ((fs'.filterMap (fun f =>
            match f with
            | .ok d => some d
            | .error _ => none)).map (docClassCount C)).sum =
          ((fs.filterMap (fun f =>
            match f with
            | .ok d => some d
            | .error _ => none)).map (docClassCount C)).sum +
          ((fs.filterMap (fun f =>
            match f with
            | .ok d => some d
            | .error _ => none)).map (totVis ts)).sum ∧
        List.Forall₂ (FrameRel (AddedOverlays C ts)) fs fs' := by
  intro fs
  induction fs with
  | nil =>
    intro c nid _
    exact ⟨[], nid, by simp [addNodesFrames], by simp, List.Forall₂.nil⟩
  | cons f fs ih =>
    intro c nid hb
    cases f with
    | error e =>
      obtain ⟨fs', nid', hrun, hcls, hfa⟩ :=
        ih c nid (fun d hd => hb d (List.mem_cons_of_mem _ hd))
      refine ⟨.error e :: fs', nid', ?_, ?_, ?_⟩
      · simp only [addNodesFrames]
        rw [hrun]
        simp [List.filterMap_cons]
      · simpa using hcls
      · exact List.Forall₂.cons rfl hfa
    | ok d =>
      obtain ⟨hbd, hmixd⟩ := hb d (List.mem_cons_self _ _)
      obtain ⟨rd, pre, bd, bcs, post, pre1, nid1, ovs, nid2, hdoc, hpre, hbdt,
        hpl, hpre1, hov, hle, hlen, hadd⟩ :=
        addNodesDoc_spec cb dnd C ts d nid hbd hsel havoid hmixd
      obtain ⟨fs', nid', hrun, hcls, hfa⟩ :=
        ih (c + totVis ts d) nid2
          (fun d' hd' => hb d' (List.mem_cons_of_mem _ hd'))
      have hcount : docClassCount C (splitDoc rd pre1 bd (bcs ++ ovs) post) =
          docClassCount C d + totVis ts d := by
        rw [docClassCount_after hpl hov, ← hdoc, hlen]
      refine ⟨.ok (splitDoc rd pre1 bd (bcs ++ ovs) post) :: fs', nid',
        ?_, ?_, ?_⟩
      · simp only [addNodesFrames]
        rw [hadd]
        dsimp only
        rw [hrun]
        simp only [List.filterMap_cons, List.map_cons, List.sum_cons]
        congr 2
        omega
      · simp only [List.filterMap_cons, List.map_cons, List.sum_cons]
        rw [hcount, hcls]
        omega
      · exact List.Forall₂.cons hcount hfa

/-- C1: `addNodes` returns exactly the number of (document, target, element)
triples where the document is reachable, the element matches the target's
selector in that document, passes the target's filter when supplied, and is
visible; and exactly one overlay (one `div` of the marker class) is created
per counted triple.  Hypotheses: every reachable document has a body, all
selectors are well formed and match none of the inserted nodes, and the
callbacks are present and never throw. -/
theorem claim_C1_addNodes_count {α : Type} (p : Page) (ts : List Target)
    (C : String) (cb : Callbacks α) (dnd : Bool) (nid : Nat)
    (hbody : ∀ doc ∈ getAllDocuments p, doc.hasBody = true)
    (hsel : WellFormedSelectors ts) (havoid : AvoidingSelectors ts C)
    (hcb : CbOkAll cb ts) :
    (addNodes p ts C cb dnd nid).2 = .ok (pageVisibleCount ts p) ∧
    pageClassCount C (addNodes p ts C cb dnd nid).1 =
      pageClassCount C p + pageVisibleCount ts p := by
  obtain ⟨rd, pre, bd, bcs, post, pre1, nid1, ovs, nid2, hdoc, hpre, hbdt, hpl,
    hpre1, hov, hle, hlen, hadd⟩ := addNodesDoc_spec cb dnd C ts p.top nid
      (hbody p.top (top_mem_getAllDocuments p)) hsel havoid
      (fun t ht => Or.inl (hcb t ht))
  obtain ⟨fs', nid', hrun, hcls, _⟩ :=
    addNodesFrames_spec cb dnd C ts hsel havoid p.frames (totVis ts p.top)
      nid2 (fun d hd => ⟨hbody d (mem_getAllDocuments_of_ok hd),
        fun t ht => Or.inl (hcb t ht)⟩)
  have htopc : docClassCount C (splitDoc rd pre1 bd (bcs ++ ovs) post) =
      docClassCount C p.top + totVis ts p.top := by
    rw [docClassCount_after hpl hov, ← hdoc, hlen]
  have hres : addNodes p ts C cb dnd nid =
      ({ top := splitDoc rd pre1 bd (bcs ++ ovs) post, frames := fs' },
        .ok (totVis ts p.top + ((p.frames.filterMap (fun f =>
          match f with
          | .ok d => some d
          | .error _ => none)).map (totVis ts)).sum)) := by
    simp only [addNodes]
    rw [hadd]
    dsimp only
    rw [hrun]
  constructor
  · rw [hres]
    simp [pageVisibleCount, getAllDocuments, totVis]
  · rw [hres]
    simp only [pageClassCount, getAllDocuments, List.map_cons, List.sum_cons]
    rw [htopc, hcls]
    simp only [pageVisibleCount, getAllDocuments, List.map_cons, List.sum_cons]
    omega

theorem wTarget_wf : WellFormedSelectors [wTarget] := by
  intro t ht
  simp only [List.mem_singleton] at ht
  subst ht
  exact ⟨_, rfl⟩

theorem wTarget_avoid (C : String) : AvoidingSelectors [wTarget] C := by
  intro t ht q hq
  simp only [List.mem_singleton] at ht
  subst ht
  have hsel : Selector.pred (fun d => d.tag == "p") = Selector.pred q := hq
  injection hsel with hqq
  subst hqq
  exact ⟨fun k => rfl, fun k => rfl, fun k s => rfl⟩

theorem wCb_ok (ts : List Target) : CbOkAll wCb ts := by
  intro t ht
  refine ⟨⟨fun _ _ => Except.ok (), rfl, fun d => ⟨(), rfl⟩⟩, ?_⟩
  intro ev hev
  simp [wCb] at hev

/-- Witness for C1 on the concrete page `wPage` (two visible `p` elements
over two reachable documents, one hidden one): the count is 2 and exactly two
`div.mark` overlays exist afterwards. -/
theorem claim_C1_witness :
    (addNodes wPage [wTarget] "mark" wCb false 100).2 = .ok 2 ∧
    pageClassCount "mark" (addNodes wPage [wTarget] "mark" wCb false 100).1 = 2 := by
  have hb : ∀ doc ∈ getAllDocuments wPage, doc.hasBody = true := by decide
  have h := claim_C1_addNodes_count wPage [wTarget] "mark" wCb false 100 hb
    wTarget_wf (wTarget_avoid "mark") (wCb_ok [wTarget])
  have h1 : pageVisibleCount [wTarget] wPage = 2 := by decide
  have h2 : pageClassCount "mark" wPage = 0 := by decide
  rw [h1, h2] at h
  simpa using h

/-! ### C6: stylesheet bookkeeping -/

theorem overlay_noStylesheet (k : Nat) (C str : String) :
    noMatchList stylesheetPred [titledOverlay k C str] = true := rfl

theorem processElement_doc_cases {α : Type} {cb : Callbacks α} {dnd : Bool}
    {C : String} {t : Target} {s : AddState} {el : ElemData × List ElemData}
    {s' : AddState} {r : Option DomError}
    (h : processElement cb dnd C t s el = (s', r)) :
    s' = s ∨ ∃ rd pre bd bcs post str, PreFree pre ∧ (bd.tag == "body") = true ∧
      s.doc = splitDoc rd pre bd bcs post ∧
      s' = ⟨splitDoc rd pre bd (bcs ++ [titledOverlay s.nid C str]) post,
        s.counter + 1, s.nid + 2⟩ := by
  unfold processElement at h
  rcases hv : isVisible el.1 el.2 with _ | _
  · rw [hv] at h
    simp only [Bool.not_false, if_true] at h
    injection h with h1 h2
    exact Or.inl h1.symm
  · rw [hv] at h
    simp only [Bool.not_true, Bool.false_eq_true, if_false] at h
    rcases hg : cb.getInfo with _ | g
    · rw [hg] at h
      dsimp only at h
      injection h with h1 h2
      exact Or.inl h1.symm
    · rw [hg] at h
      dsimp only at h
      rcases hi : g el.1 t with e | i
      · rw [hi] at h
        dsimp only at h
        injection h with h1 h2
        exact Or.inl h1.symm
      · rw [hi] at h
        dsimp only at h
        rcases hev : (match cb.evalInfo with
            | none => Except.ok ()
            | some ev => ev i t) with e | u
        · rw [hev] at h
          dsimp only at h
          injection h with h1 h2
          exact Or.inl h1.symm
        · rw [hev] at h
          dsimp only at h
          simp only [addDragAndDrop, ite_self] at h
          have hset : setFirstChildTitle (createOverlay s.nid C) (cb.fmt i) =
              .ok (titledOverlay s.nid C (cb.fmt i)) := rfl
          rw [hset] at h
          dsimp only at h
          rcases hb : s.doc.body with _ | b
          · rw [show s.doc.appendChildToBody
                (titledOverlay s.nid C (cb.fmt i)) = .error .nullDeref from by
                unfold Document.appendChildToBody
                rw [hb]] at h
            dsimp only at h
            injection h with h1 h2
            exact Or.inl h1.symm
          · have hsb : s.doc.hasBody = true := by
              simp [Document.hasBody, hb]
            obtain ⟨rd, pre, bd, bcs, post, hdoc, hpre, hbd⟩ :=
              hasBody_splitDoc hsb
            have happ : (splitDoc rd pre bd bcs post).appendChildToBody
                (titledOverlay s.nid C (cb.fmt i)) =
                .ok (splitDoc rd pre bd
                  (bcs ++ [titledOverlay s.nid C (cb.fmt i)]) post) :=
              appendChildToBody_splitDoc hpre hbd
            rw [hdoc, happ] at h
            dsimp only at h
            injection h with h1 h2
            right
            exact ⟨rd, pre, bd, bcs, post, cb.fmt i, hpre, hbd, hdoc, h1.symm⟩

theorem processElement_link {α : Type} {cb : Callbacks α} {dnd : Bool}
    {C : String} {t : Target} {s : AddState} {el : ElemData × List ElemData}
    {s' : AddState} {r : Option DomError}
    (h : processElement cb dnd C t s el = (s', r)) :
    s'.doc.matchesOf stylesheetPred = s.doc.matchesOf stylesheetPred := by
  rcases processElement_doc_cases h with rfl | ⟨rd, pre, bd, bcs, post, str,
    hpre, hbd, hdoc, hs'⟩
  · rfl
  · rw [hs', hdoc]
    exact matchesOf_append_stable (overlay_noStylesheet s.nid C str)

theorem processElements_link {α : Type} {cb : Callbacks α} {dnd : Bool}
    {C : String} {t : Target} :
    ∀ {els : List (ElemData × List ElemData)} {s s' : AddState}
      {r : Option DomError}, processElements cb dnd C t els s = (s', r) →
      s'.doc.matchesOf stylesheetPred = s.doc.matchesOf stylesheetPred := by
  intro els
  induction els with
  | nil =>
    intro s s' r h
    simp only [processElements] at h
    injection h with h1 h2
    rw [h1]
  | cons e es ih =>
    intro s s' r h
    simp only [processElements] at h
    rcases hpe : processElement cb dnd C t s e with ⟨s1, r1⟩
    rw [hpe] at h
    rcases r1 with _ | e1
    · exact (ih h).trans (processElement_link hpe)
    · dsimp only at h
      injection h with h1 h2
      rw [← h1]
      exact processElement_link hpe

theorem processTargets_link {α : Type} {cb : Callbacks α} {dnd : Bool}
    {C : String} :
    ∀ {ts : List Target} {s s' : AddState} {r : Option DomError},
      processTargets cb dnd C ts s = (s', r) →
      s'.doc.matchesOf stylesheetPred = s.doc.matchesOf stylesheetPred := by
  intro ts
  induction ts with
  | nil =>
    intro s s' r h
    simp only [processTargets] at h
    injection h with h1 h2
    rw [h1]
  | cons t ts ih =>
    intro s s' r h
    simp only [processTargets] at h
    rcases hpt : processTarget cb dnd C s t with ⟨s1, r1⟩
    rw [hpt] at h
    have h1 : s1.doc.matchesOf stylesheetPred = s.doc.matchesOf stylesheetPred := by
      unfold processTarget at hpt
      rcases hsel : t.selector with q | _
      · rw [hsel] at hpt
        dsimp only at hpt
        exact processElements_link hpt
      · rw [hsel] at hpt
        dsimp only at hpt
        injection hpt with hp1 hp2
        rw [hp1]
    rcases r1 with _ | e1
    · exact (ih h).trans h1
    · dsimp only at h
      injection h with ha hb
      rw [← ha]
      exact h1

theorem insertStylesheet_linkCount (doc : Document) (nid : Nat) :
    docLinkCount (insertStylesheet doc nid).1 =
      if !doc.hasStylesheet && doc.root.isSome then docLinkCount doc + 1
      else docLinkCount doc := by
  rcases hss : doc.hasStylesheet with _ | _
  · rcases hroot : doc.root with _ | r
    · simp [insertStylesheet, hss, hroot]
    · rcases r with ⟨rd, rcs⟩
      have hres : (insertStylesheet doc nid).1 =
          ⟨some (.mk rd (DomTree.mk (linkElem nid) [] :: rcs))⟩ := by
        simp [insertStylesheet, hss, hroot]
      rw [hres]
      simp only [hss, hroot, Bool.not_false, Option.isSome_some, Bool.and_self,
        if_true]
      have hlink : stylesheetPred (linkElem nid) = true := rfl
      simp only [docLinkCount, Document.matchesOf, Document.collectPairs,
        hroot, collect, collectList, List.filter_append, List.filter_cons,
        hlink, if_true, List.nil_append]
      by_cases hrd : stylesheetPred rd = true
      · simp [hrd]
      · simp only [Bool.not_eq_true] at hrd
        simp [hrd]
  · simp [insertStylesheet, hss]

theorem addNodesDoc_LinkStep {α : Type} {cb : Callbacks α} {dnd : Bool}
    {C : String} {ts : List Target} {d : Document} {n : Nat} {d' : Document}
    {c n' : Nat} {r : Option DomError}
    (h : addNodesDoc d ts C cb dnd n = (d', c, n', r)) : LinkStep d d' := by
  unfold addNodesDoc at h
  dsimp only at h
  rcases hpt : processTargets cb dnd C ts
      ⟨(insertStylesheet d n).1, 0, (insertStylesheet d n).2⟩ with ⟨s', r'⟩
  rw [hpt] at h
  injection h with h1 h2
  have hml := processTargets_link hpt
  unfold LinkStep
  rw [← h1]
  have : docLinkCount s'.doc = docLinkCount (insertStylesheet d n).1 := by
    unfold docLinkCount
    rw [hml]
  rw [this, insertStylesheet_linkCount]

theorem addNodesDoc_LinkEq {α : Type} {cb : Callbacks α} {dnd : Bool}
    {C : String} {ts : List Target} {d : Document} {n : Nat} {d' : Document}
    {c n' : Nat} {r : Option DomError}
    (hd : d.hasStylesheet = true ∨ d.root = none)
    (h : addNodesDoc d ts C cb dnd n = (d', c, n', r)) : LinkEq d d' := by
  have hls := addNodesDoc_LinkStep h
  unfold LinkStep at hls
  unfold LinkEq
  rcases hd with hd | hd
  · rw [hls]
    simp [hd]
  · rw [hls]
    simp [hd]

theorem FrameRel_refl {R : Document → Document → Prop} (hR : ∀ d, R d d) :
    ∀ f, FrameRel R f f := by
  intro f
  cases f with
  | error e => exact rfl
  | ok d => exact hR d

theorem forall₂_frames_refl {R : Document → Document → Prop}
    (hR : ∀ d, R d d) (fs : List (Except DomError Document)) :
    List.Forall₂ (FrameRel R) fs fs := by
  induction fs with
  | nil => exact .nil
  | cons f fs ih => exact .cons (FrameRel_refl hR f) ih

theorem addNodesFrames_rel {α : Type} {cb : Callbacks α} {dnd : Bool}
    {C : String} {ts : List Target} {R : Document → Document → Prop}
    (hrefl : ∀ d, R d d) :
    ∀ (fs : List (Except DomError Document)) (c nid : Nat),
      (∀ d, Except.ok d ∈ fs → ∀ (n : Nat) (d' : Document) (c' n' : Nat)
        (r : Option DomError), addNodesDoc d ts C cb dnd n = (d', c', n', r) →
        R d d') →
      List.Forall₂ (FrameRel R) fs (addNodesFrames ts C cb dnd fs c nid).1 := by
  intro fs
  induction fs with
  | nil =>
    intro c nid _
    exact .nil
  | cons f fs ih =>
    intro c nid hstep
    cases f with
    | error e =>
      simp only [addNodesFrames]
      exact .cons rfl (ih c nid
        (fun d hd => hstep d (List.mem_cons_of_mem _ hd)))
    | ok d =>
      simp only [addNodesFrames]
      rcases hd : addNodesDoc d ts C cb dnd nid with ⟨d1, dc, nid1, err⟩
      cases err with
      | some e =>
        dsimp only
        exact .cons (hstep d (List.mem_cons_self _ _) nid d1 dc nid1 (some e) hd)
          (forall₂_frames_refl hrefl fs)
      | none =>
        dsimp only
        exact .cons (hstep d (List.mem_cons_self _ _) nid d1 dc nid1 none hd)
          (ih (c + dc) nid1 (fun d' hd' => hstep d' (List.mem_cons_of_mem _ hd')))

theorem addNodesFrames_rel_ok {α : Type} {cb : Callbacks α} {dnd : Bool}
    {C : String} {ts : List Target} {R : Document → Document → Prop}
    (hstep : ∀ (d : Document) (n : Nat) (d' : Document) (c n' : Nat),
      addNodesDoc d ts C cb dnd n = (d', c, n', none) → R d d') :
    ∀ (fs : List (Except DomError Document)) (c nid : Nat)
      (fs' : List (Except DomError Document)) (c' nid' : Nat),
      addNodesFrames ts C cb dnd fs c nid = (fs', c', nid', none) →
      List.Forall₂ (FrameRel R) fs fs' := by
  intro fs
  induction fs with
  | nil =>
    intro c nid fs' c' nid' h
    simp only [addNodesFrames] at h
    injection h with h1 h2
    rw [← h1]
    exact .nil
  | cons f fs ih =>
    intro c nid fs' c' nid' h
    cases f with
    | error e =>
      simp only [addNodesFrames] at h
      rcases hr : addNodesFrames ts C cb dnd fs c nid with ⟨fs1, c1, nid1, err1⟩
      rw [hr] at h
      dsimp only at h
      injection h with h1 h2
      injection h2 with h2 h3
      injection h3 with h3 h4
      rw [← h1]
      subst h4
      exact .cons rfl (ih c nid fs1 c1 nid1 hr)
    | ok d =>
      simp only [addNodesFrames] at h
      rcases hd : addNodesDoc d ts C cb dnd nid with ⟨d1, dc, nid1, err⟩
      rw [hd] at h
      cases err with
      | some e =>
        dsimp only at h
        injection h with h1 h2
        injection h2 with h2 h3
        injection h3 with h3 h4
        cases h4
      | none =>
        dsimp only at h
        rcases hr : addNodesFrames ts C cb dnd fs (c + dc) nid1 with
          ⟨fs1, c1, nid2, err1⟩
        rw [hr] at h
        dsimp only at h
        injection h with h1 h2
        injection h2 with h2 h3
        injection h3 with h3 h4
        rw [← h1]
        subst h4
        exact .cons (hstep d nid d1 dc nid1 hd) (ih (c + dc) nid1 fs1 c1 nid2 hr)

/-- C6 (amended): per reachable document, `addNodes` inserts the shared
stylesheet link exactly when no element with the fixed href exists AND the
document has a first element child (the counterexample shows a document
without a root element is silently left without the link, cf. C9); on a page
whose reachable documents all either already carry the stylesheet or lack a
root element — as after any successful `addNodes` call — a repeated call
inserts no further link, whatever its outcome (idempotent injection keyed by
href). -/
theorem claim_C6_stylesheet (α : Type) :
    (∀ (p : Page) (ts : List Target) (C : String) (cb : Callbacks α)
        (dnd : Bool) (nid : Nat) (p' : Page) (n : Nat),
        addNodes p ts C cb dnd nid = (p', .ok n) → DocsRel LinkStep p p') ∧
    (∀ (p : Page) (ts : List Target) (C : String) (cb : Callbacks α)
        (dnd : Bool) (nid : Nat) (p' : Page) (r : Except DomError Nat),
        (∀ doc ∈ getAllDocuments p,
          (doc.hasStylesheet || doc.root.isNone) = true) →
        addNodes p ts C cb dnd nid = (p', r) → DocsRel LinkEq p p') := by
  constructor
  · intro p ts C cb dnd nid p' n h
    unfold addNodes at h
    dsimp only at h
    rcases hrt : addNodesDoc p.top ts C cb dnd nid with ⟨top', c0, nid0, err0⟩
    rw [hrt] at h
    cases err0 with
    | some e =>
      dsimp only at h
      injection h with h1 h2
      injection h2
    | none =>
      dsimp only at h
      rcases hrf : addNodesFrames ts C cb dnd p.frames c0 nid0 with
        ⟨fs', c', nid', err1⟩
      rw [hrf] at h
      cases err1 with
      | some e =>
        dsimp only at h
        injection h with h1 h2
        injection h2
      | none =>
        dsimp only at h
        injection h with h1 h2
        rw [← h1]
        exact ⟨addNodesDoc_LinkStep hrt,
          addNodesFrames_rel_ok
            (fun d n1 d1 c1 n1' hh => addNodesDoc_LinkStep hh)
            p.frames c0 nid0 fs' c' nid' hrf⟩
  · intro p ts C cb dnd nid p' r hdocs h
    have hconv : ∀ doc ∈ getAllDocuments p,
        doc.hasStylesheet = true ∨ doc.root = none := by
      intro doc hd
      have := hdocs doc hd
      rcases Bool.or_eq_true_iff.mp this with hb | hb
      · exact Or.inl hb
      · exact Or.inr (Option.isNone_iff_eq_none.mp hb)
    have hrefl : ∀ d : Document, LinkEq d d := fun d => rfl
    unfold addNodes at h
    dsimp only at h
    rcases hrt : addNodesDoc p.top ts C cb dnd nid with ⟨top', c0, nid0, err0⟩
    rw [hrt] at h
    have htop : LinkEq p.top top' :=
      addNodesDoc_LinkEq (hconv p.top (top_mem_getAllDocuments p)) hrt
    have hfr : ∀ (c nid : Nat),
        List.Forall₂ (FrameRel LinkEq) p.frames
          (addNodesFrames ts C cb dnd p.frames c nid).1 := by
      intro c nid
      exact addNodesFrames_rel hrefl p.frames c nid
        (fun d hd n1 d1 c1 n1' r1 hh =>
          addNodesDoc_LinkEq (hconv d (mem_getAllDocuments_of_ok hd)) hh)
    cases err0 with
    | some e =>
      dsimp only at h
      injection h with h1 h2
      rw [← h1]
      exact ⟨htop, forall₂_frames_refl hrefl p.frames⟩
    | none =>
      dsimp only at h
      rcases hrf : addNodesFrames ts C cb dnd p.frames c0 nid0 with
        ⟨fs', c', nid', err1⟩
      rw [hrf] at h
      have hfr' : List.Forall₂ (FrameRel LinkEq) p.frames fs' := by
        have := hfr c0 nid0
        rw [hrf] at this
        exact this
      cases err1 with
      | some e =>
        dsimp only at h
        injection h with h1 h2
        rw [← h1]
        exact ⟨htop, hfr'⟩
      | none =>
        dsimp only at h
        injection h with h1 h2
        rw [← h1]
        exact ⟨htop, hfr'⟩

/-- Counterexample to C6 as stated: a reachable document with no element
child lacks the stylesheet href, yet a successful `addNodes` pass inserts no
link into it — its link count stays zero instead of becoming one. -/
theorem claim_C6_counterexample :
    wRootless.hasStylesheet = false ∧
    (addNodes w6Page ([] : List Target) "c" wCb false 0).2 = .ok 0 ∧
    docLinkCount (addNodes w6Page ([] : List Target) "c" wCb false 0).1.top
      = 0 :=
  ⟨rfl, rfl, rfl⟩

/-- Witness for C6 (amended) on concrete pages: a successful first call
performs the link step on every document, and a repeated call (with a
different marker class) changes no link count. -/
theorem claim_C6_witness :
    DocsRel LinkStep wPage (addNodes wPage [wTarget] "mark" wCb false 100).1 ∧
    DocsRel LinkEq (addNodes wPage [wTarget] "mark" wCb false 100).1
      (addNodes (addNodes wPage [wTarget] "mark" wCb false 100).1
        [wTarget] "mk2" wCb false 200).1 := by
  constructor
  · have h2 : (addNodes wPage [wTarget] "mark" wCb false 100).2 =
        Except.ok 2 := rfl
    have hadd : addNodes wPage [wTarget] "mark" wCb false 100 =
        ((addNodes wPage [wTarget] "mark" wCb false 100).1, Except.ok 2) := by
      rw [← h2]
    exact (claim_C6_stylesheet Unit).1 _ _ _ _ _ _ _ _ hadd
  · have hadd : addNodes (addNodes wPage [wTarget] "mark" wCb false 100).1
        [wTarget] "mk2" wCb false 200 =
        ((addNodes (addNodes wPage [wTarget] "mark" wCb false 100).1
          [wTarget] "mk2" wCb false 200).1,
         (addNodes (addNodes wPage [wTarget] "mark" wCb false 100).1
          [wTarget] "mk2" wCb false 200).2) := rfl
    exact (claim_C6_stylesheet Unit).2 _ _ _ _ _ _ _ _ (by decide) hadd

/-! ### Removal of body children by identity -/

theorem removeChildById_head {i : Nat} {c : DomTree} {cs : List DomTree}
    (h : (c.data.eid == i) = true) :
    removeChildById i (c :: cs) = some cs := by
  simp [removeChildById, h]

theorem removeChildById_not_head {i : Nat} {c : DomTree} {cs : List DomTree}
    (h : (c.data.eid == i) = false) :
    removeChildById i (c :: cs) =
      (removeChildById i cs).map (fun cs' => c :: cs') := by
  simp [removeChildById, h]

theorem removeIds_skip {c : DomTree} :
    ∀ {L : List Nat} {cs : List DomTree}, (∀ i ∈ L, i ≠ c.data.eid) →
      removeIds L (c :: cs) = (removeIds L cs).map (fun cs' => c :: cs') := by
  intro L
  induction L with
  | nil =>
    intro cs _
    rfl
  | cons i L ih =>
    intro cs hL
    have hne : (c.data.eid == i) = false := by
      simp
      exact fun he => hL i (List.mem_cons_self _ _) he.symm
    simp only [removeIds, removeChildById_not_head hne]
    rcases hrc : removeChildById i cs with _ | cs1
    · rfl
    · simp only [Option.map_some]
      exact ih (fun j hj => hL j (List.mem_cons_of_mem _ hj))

theorem removeIds_filter (q : DomTree → Bool) :
    ∀ (cs : List DomTree), (cs.map (fun c => c.data.eid)).Nodup →
      removeIds ((cs.filter q).map (fun c => c.data.eid)) cs =
        some (cs.filter (fun c => !q c)) := by
  intro cs
  induction cs with
  | nil => intro _; rfl
  | cons c cs ih =>
    intro hnd
    simp only [List.map_cons, List.nodup_cons] at hnd
    obtain ⟨hmem, hnd'⟩ := hnd
    rcases hq : q c with _ | _
    · have hids : ∀ i ∈ (cs.filter q).map (fun c => c.data.eid),
          i ≠ c.data.eid := by
        intro i hi he
        apply hmem
        rw [← he]
        rcases List.mem_map.mp hi with ⟨x, hx, hxe⟩
        exact List.mem_map.mpr ⟨x, List.mem_of_mem_filter hx, hxe⟩
      rw [List.filter_cons_of_neg (by simp [hq]), removeIds_skip hids,
        ih hnd', List.filter_cons_of_pos (by simp [hq])]
      rfl
    · rw [List.filter_cons_of_pos (by simp [hq]), List.map_cons]
      simp only [removeIds, removeChildById_head (beq_self_eq_true _)]
      rw [ih hnd', List.filter_cons_of_neg (by simp [hq])]

theorem removeChildById_sublist {i : Nat} :
    ∀ {cs cs' : List DomTree}, removeChildById i cs = some cs' →
      cs'.Sublist cs := by
  intro cs
  induction cs with
  | nil => intro cs' h; simp [removeChildById] at h
  | cons c cs ih =>
    intro cs' h
    rcases hc : (c.data.eid == i) with _ | _
    · rw [removeChildById_not_head hc] at h
      rcases hrc : removeChildById i cs with _ | cs1
      · rw [hrc] at h; simp at h
      · rw [hrc] at h
        simp at h
        rw [← h]
        exact (ih hrc).cons₂ c
    · rw [removeChildById_head hc] at h
      obtain rfl := Option.some.inj h
      exact List.sublist_cons_self c _

theorem removeIds_sublist :
    ∀ {L : List Nat} {cs cs' : List DomTree}, removeIds L cs = some cs' →
      cs'.Sublist cs := by
  intro L
  induction L with
  | nil =>
    intro cs cs' h
    obtain rfl := Option.some.inj h
    exact List.Sublist.refl _
  | cons i L ih =>
    intro cs cs' h
    simp only [removeIds] at h
    rcases hrc : removeChildById i cs with _ | cs1
    · rw [hrc] at h; cases h
    · rw [hrc] at h
      exact (ih h).trans (removeChildById_sublist hrc)

theorem removeLoop_split :
    ∀ (es : List ElemData) {rd : ElemData} {pre : List DomTree} {bd : ElemData}
      {bcs post bcsF : List DomTree}, PreFree pre → (bd.tag == "body") = true →
      removeIds (es.map (fun e => e.eid)) bcs = some bcsF →
      removeLoop es (splitDoc rd pre bd bcs post) =
        (splitDoc rd pre bd bcsF post, none) := by
  intro es
  induction es with
  | nil =>
    intro rd pre bd bcs post bcsF hpre hbd h
    obtain rfl := Option.some.inj h
    rfl
  | cons e es ih =>
    intro rd pre bd bcs post bcsF hpre hbd h
    simp only [List.map_cons, removeIds] at h
    rcases hrc : removeChildById e.eid bcs with _ | bcs1
    · rw [hrc] at h; cases h
    · rw [hrc] at h
      have hrem : (splitDoc rd pre bd bcs post).removeChildFromBody e.eid =
          .ok (splitDoc rd pre bd bcs1 post) := by
        unfold Document.removeChildFromBody
        rw [body_splitDoc hpre hbd]
        simp only [DomTree.children, hrc]
        rw [updateBody_splitDoc hpre hbd]
      simp only [removeLoop, hrem]
      exact ih hpre hbd h

theorem removeLoop_abort {e : ElemData} {es : List ElemData} {rd : ElemData}
    {pre : List DomTree} {bd : ElemData} {bcs post : List DomTree}
    (hpre : PreFree pre) (hbd : (bd.tag == "body") = true)
    (h : removeChildById e.eid bcs = none) :
    removeLoop (e :: es) (splitDoc rd pre bd bcs post) =
      (splitDoc rd pre bd bcs post, some .notFound) := by
  have hrem : (splitDoc rd pre bd bcs post).removeChildFromBody e.eid =
      .error .notFound := by
    unfold Document.removeChildFromBody
    rw [body_splitDoc hpre hbd]
    simp only [DomTree.children, h]
  simp only [removeLoop, hrem]

/-! ### Matches located only at body-children roots -/

theorem noMatch_of_filter_nil {q : ElemData → Bool} {cs : List DomTree}
    {anc : List ElemData}
    (h : (collectList anc cs).filter (fun x => q x.1) = []) :
    noMatchList q cs = true := by
  rw [noMatchList, List.all_eq_true]
  intro d hd
  rw [← collectList_map_fst anc cs] at hd
  rcases List.mem_map.mp hd with ⟨x, hx, rfl⟩
  rcases hq : q x.1 with _ | _
  · simp [hq]
  · exfalso
    have hmem : x ∈ (collectList anc cs).filter (fun x => q x.1) :=
      List.mem_filter.mpr ⟨hx, hq⟩
    rw [h] at hmem
    exact absurd hmem (List.not_mem_nil x)

theorem collectList_children_roots {q : ElemData → Bool} :
    ∀ {bcs : List DomTree} (anc : List ElemData),
      (∀ c ∈ bcs, noMatchList q c.children = true) →
      (collectList anc bcs).filter (fun x => q x.1) =
        (bcs.filter (fun c => q c.data)).map (fun c => (c.data, anc)) := by
  intro bcs
  induction bcs with
  | nil => intro anc _; rfl
  | cons c cs ih =>
    intro anc h
    rcases c with ⟨d, ccs⟩
    have hc := h _ (List.mem_cons_self _ _)
    simp only [DomTree.children] at hc
    simp only [collectList, collect, List.filter_append, List.filter_cons]
    rw [collectList_filter_nil hc,
      ih anc (fun c' hc' => h c' (List.mem_cons_of_mem _ hc'))]
    rcases hq : q d with _ | _
    · simp [DomTree.data, hq]
    · simp [DomTree.data, hq]

theorem matchesOf_rootsOnly {q : ElemData → Bool} {rd : ElemData}
    {pre : List DomTree} {bd : ElemData} {bcs post : List DomTree}
    (hro : RootsOnly q rd pre bd bcs post) :
    (splitDoc rd pre bd bcs post).matchesOf q =
      (bcs.filter (fun c => q c.data)).map (fun c => (c.data, [bd, rd])) := by
  obtain ⟨hrd, hpre, hbd, hch, hpost⟩ := hro
  rw [matchesOf_splitDoc, collectList_filter_nil hpre,
    collectList_filter_nil hpost, collectList_children_roots _ hch]
  simp [hrd, hbd]

theorem mem_datas_root :
    ∀ {cs : List DomTree} {c : DomTree}, c ∈ cs →
      c.data ∈ datasListOf cs := by
  intro cs
  induction cs with
  | nil => intro c hc; cases hc
  | cons c' cs ih =>
    intro c hc
    rcases List.mem_cons.mp hc with rfl | hc
    · rcases c with ⟨d, ccs⟩
      simp [datasListOf, DomTree.datasOf, DomTree.data]
    · simp only [datasListOf, List.mem_append]
      exact Or.inr (ih hc)

theorem datas_child_subset :
    ∀ {cs : List DomTree} {c : DomTree}, c ∈ cs →
      ∀ {d : ElemData}, d ∈ datasListOf c.children → d ∈ datasListOf cs := by
  intro cs
  induction cs with
  | nil => intro c hc; cases hc
  | cons c' cs ih =>
    intro c hc d hd
    rcases List.mem_cons.mp hc with rfl | hc
    · rcases c with ⟨dd, ccs⟩
      simp only [DomTree.children] at hd
      simp only [datasListOf, DomTree.datasOf, List.mem_append, List.mem_cons]
      exact Or.inl (Or.inr hd)
    · simp only [datasListOf, List.mem_append]
      exact Or.inr (ih hc hd)

theorem noMatch_root {q : ElemData → Bool} {cs : List DomTree}
    (h : noMatchList q cs = true) {c : DomTree} (hc : c ∈ cs) :
    q c.data = false := by
  have := List.all_eq_true.mp h c.data (mem_datas_root hc)
  simpa using this

theorem noMatch_children {q : ElemData → Bool} {cs : List DomTree}
    (h : noMatchList q cs = true) {c : DomTree} (hc : c ∈ cs) :
    noMatchList q c.children = true := by
  rw [noMatchList, List.all_eq_true]
  intro d hd
  exact List.all_eq_true.mp h d (datas_child_subset hc hd)

theorem matchesOf_nil_parts {q : ElemData → Bool} {rd : ElemData}
    {pre : List DomTree} {bd : ElemData} {bcs post : List DomTree}
    (h : (splitDoc rd pre bd bcs post).matchesOf q = []) :
    q rd = false ∧ noMatchList q pre = true ∧ q bd = false ∧
    noMatchList q bcs = true ∧ noMatchList q post = true := by
  rw [matchesOf_splitDoc] at h
  simp only [List.append_eq_nil] at h
  obtain ⟨h1, h2, h3, h4, h5⟩ := h
  refine ⟨?_, noMatch_of_filter_nil h2, ?_, noMatch_of_filter_nil h4,
    noMatch_of_filter_nil h5⟩
  · rcases hq : q rd with _ | _
    · rfl
    · rw [hq] at h1; simp at h1
  · rcases hq : q bd with _ | _
    · rfl
    · rw [hq] at h3; simp at h3

theorem overlay_root_matches (C : String) (k : Nat) :
    classSelector C (overlayData k C) = true := by
  simp [classSelector, overlayData]

theorem label_root_fails (C : String) (k : Nat) (s : String) :
    classSelector C (labelTitled k s) = false := rfl

theorem link_root_fails (C : String) (n : Nat) :
    classSelector C (linkElem n) = false := rfl

/-! ### C3: add then remove, per document -/

theorem bodyChildren_splitDoc {rd : ElemData} {pre : List DomTree}
    {bd : ElemData} {bcs post : List DomTree} (hpre : PreFree pre)
    (hbd : (bd.tag == "body") = true) :
    (splitDoc rd pre bd bcs post).bodyChildren = bcs := by
  unfold Document.bodyChildren
  rw [body_splitDoc hpre hbd]
  rfl

theorem titledOverlay_data (k : Nat) (C s : String) :
    (titledOverlay k C s).data = overlayData k C := rfl

theorem titledOverlay_eid (k : Nat) (C s : String) :
    (titledOverlay k C s).data.eid = k := rfl

theorem doc_add_remove_spec {α : Type} (cb : Callbacks α) (dnd : Bool)
    (C : String) (ts : List Target) (doc : Document) (nid : Nat)
    (hbody : doc.hasBody = true)
    (hnom : doc.matchesOf (classSelector C) = [])
    (hnodup : (doc.bodyChildren.map (fun c => c.data.eid)).Nodup)
    (hbound : ∀ c ∈ doc.bodyChildren, c.data.eid < nid)
    (hsel : WellFormedSelectors ts) (havoid : AvoidingSelectors ts C)
    (hcb : CbOkAll cb ts) :
    ∃ doc1 nid',
      addNodesDoc doc ts C cb dnd nid = (doc1, totVis ts doc, nid', none) ∧
      nid ≤ nid' ∧
      removeFromDoc C doc1 = (bodyFilter C doc1, none) ∧
      (bodyFilter C doc1).matchesOf (classSelector C) = [] := by
  obtain ⟨rd, pre, bd, bcs, post, pre1, nid1, ovs, nid2, hdoc, hpre, hbdt, hpl,
    hpre1, hov, hle, hlen, hadd⟩ :=
    addNodesDoc_spec cb dnd C ts doc nid hbody hsel havoid
      (fun t ht => Or.inl (hcb t ht))
  have hbc : doc.bodyChildren = bcs := by
    rw [hdoc]
    exact bodyChildren_splitDoc hpre hbdt
  rw [hbc] at hnodup hbound
  rw [hdoc] at hnom
  obtain ⟨hrd, hpreN, hbdN, hbcsN, hpostN⟩ := matchesOf_nil_parts hnom
  have hovmem := ovb_mem hov
  -- the post-add body children
  have hroots1 : ∀ c ∈ bcs ++ ovs, noMatchList (classSelector C) c.children = true := by
    intro c hc
    rcases List.mem_append.mp hc with hc | hc
    · exact noMatch_children hbcsN hc
    · obtain ⟨k, str, rfl, _, _⟩ := hovmem c hc
      simp [noMatchList, datasListOf, DomTree.datasOf, DomTree.children,
        titledOverlay, label_root_fails]
  have hpre1N : noMatchList (classSelector C) pre1 = true := by
    rcases hpl with ⟨rfl, _⟩ | ⟨rfl, _⟩
    · exact hpreN
    · simp only [noMatchList, datasListOf, DomTree.datasOf, List.all_append,
        List.all_cons, List.all_nil, Bool.and_eq_true] at hpreN ⊢
      refine ⟨⟨by simp [link_root_fails], trivial⟩, hpreN⟩
  have hro : RootsOnly (classSelector C) rd pre1 bd (bcs ++ ovs) post :=
    ⟨hrd, hpre1N, hbdN, hroots1, hpostN⟩
  have hfb : (bcs ++ ovs).filter (fun c => classSelector C c.data) = ovs := by
    rw [List.filter_append]
    have h1 : bcs.filter (fun c => classSelector C c.data) = [] := by
      rw [List.filter_eq_nil_iff]
      intro c hc
      simp [noMatch_root hbcsN hc]
    have h2 : ovs.filter (fun c => classSelector C c.data) = ovs := by
      rw [List.filter_eq_self]
      intro c hc
      obtain ⟨k, str, rfl, _, _⟩ := hovmem c hc
      rw [titledOverlay_data]
      exact overlay_root_matches C k
    rw [h1, h2, List.nil_append]
  have hm1 : (splitDoc rd pre1 bd (bcs ++ ovs) post).matchesOf
      (classSelector C) = ovs.map (fun c => (c.data, [bd, rd])) := by
    rw [matchesOf_rootsOnly hro, hfb]
  have hnodup1 : ((bcs ++ ovs).map (fun c => c.data.eid)).Nodup := by
    rw [List.map_append, List.nodup_append]
    refine ⟨hnodup, ovb_eids_nodup hov, ?_⟩
    intro a ha hb
    rcases List.mem_map.mp ha with ⟨c, hc, rfl⟩
    rcases List.mem_map.mp hb with ⟨x, hx, hxe⟩
    obtain ⟨k, str, rfl, hk1, _⟩ := hovmem x hx
    rw [titledOverlay_eid] at hxe
    have hlt := hbound c hc
    omega
  have hrem : removeIds (((splitDoc rd pre1 bd (bcs ++ ovs) post).matchesOf
      (classSelector C)).map (fun x => x.1) |>.map (fun e => e.eid))
      (bcs ++ ovs) =
      some ((bcs ++ ovs).filter (fun c => !classSelector C c.data)) := by
    have := removeIds_filter (fun c => classSelector C c.data) (bcs ++ ovs)
      hnodup1
    rw [hfb] at this
    rw [hm1]
    simp only [List.map_map]
    have hmm : (ovs.map (fun c => c.data.eid)) =
        ovs.map ((fun e : ElemData => e.eid) ∘ (fun x :
          ElemData × List ElemData => x.1) ∘ (fun c : DomTree =>
            (c.data, ([bd, rd] : List ElemData)))) := rfl
    rw [← hmm]
    exact this
  have hremove : removeFromDoc C (splitDoc rd pre1 bd (bcs ++ ovs) post) =
      (splitDoc rd pre1 bd
        ((bcs ++ ovs).filter (fun c => !classSelector C c.data)) post, none) := by
    unfold removeFromDoc
    exact removeLoop_split _ hpre1 hbdt hrem
  have hbf : bodyFilter C (splitDoc rd pre1 bd (bcs ++ ovs) post) =
      splitDoc rd pre1 bd
        ((bcs ++ ovs).filter (fun c => !classSelector C c.data)) post := by
    unfold bodyFilter
    exact updateBody_splitDoc hpre1 hbdt
  refine ⟨splitDoc rd pre1 bd (bcs ++ ovs) post, nid2, hadd,
    le_trans hle (ovb_le hov), ?_, ?_⟩
  · rw [hremove, hbf]
  · rw [hbf]
    have hro2 : RootsOnly (classSelector C) rd pre1 bd
        ((bcs ++ ovs).filter (fun c => !classSelector C c.data)) post := by
      refine ⟨hrd, hpre1N, hbdN, ?_, hpostN⟩
      intro c hc
      exact hroots1 c (List.mem_of_mem_filter hc)
    rw [matchesOf_rootsOnly hro2]
    have : ((bcs ++ ovs).filter (fun c => !classSelector C c.data)).filter
        (fun c => classSelector C c.data) = [] := by
      rw [List.filter_eq_nil_iff]
      intro c hc
      have := (List.mem_filter.mp hc).2
      simp at this
      simp [this]
    rw [this]
    rfl

theorem frames_add_remove {α : Type} (cb : Callbacks α) (dnd : Bool)
    (C : String) (ts : List Target) (hsel : WellFormedSelectors ts)
    (havoid : AvoidingSelectors ts C) (hcb : CbOkAll cb ts) (nid0 : Nat) :
    ∀ (fs : List (Except DomError Document)) (c nid : Nat), nid0 ≤ nid →
      (∀ d, Except.ok d ∈ fs → d.hasBody = true ∧
        d.matchesOf (classSelector C) = [] ∧
        (d.bodyChildren.map (fun x => x.data.eid)).Nodup ∧
        (∀ x ∈ d.bodyChildren, x.data.eid < nid0)) →
      ∃ fs1 c' nid',
        addNodesFrames ts C cb dnd fs c nid = (fs1, c', nid', none) ∧
        removeFrames C fs1 =
          (fs1.map (fun fr => fr.map (bodyFilter C)), none) ∧
        (∀ d1, Except.ok d1 ∈ fs1 →
          (bodyFilter C d1).matchesOf (classSelector C) = []) := by
  intro fs
  induction fs with
  | nil =>
    intro c nid _ _
    exact ⟨[], c, nid, rfl, rfl, by intro d1 hd1; cases hd1⟩
  | cons f fs ih =>
    intro c nid hle hfacts
    cases f with
    | error e =>
      obtain ⟨fs1, c', nid', hrun, hrem, hnil⟩ :=
        ih c nid hle (fun d hd => hfacts d (List.mem_cons_of_mem _ hd))
      refine ⟨.error e :: fs1, c', nid', ?_, ?_, ?_⟩
      · simp only [addNodesFrames]
        rw [hrun]
      · simp only [removeFrames]
        rw [hrem]
        simp [Except.map]
      · intro d1 hd1
        rcases List.mem_cons.mp hd1 with hd1 | hd1
        · cases hd1
        · exact hnil d1 hd1
    | ok d =>
      obtain ⟨hb, hm, hnd, hbd⟩ := hfacts d (List.mem_cons_self _ _)
      obtain ⟨doc1, nid2, hadd, hle2, hremd, hnild⟩ :=
        doc_add_remove_spec cb dnd C ts d nid hb hm hnd
          (fun x hx => lt_of_lt_of_le (hbd x hx) hle) hsel havoid hcb
      obtain ⟨fs1, c', nid', hrun, hrem, hnil⟩ :=
        ih (c + totVis ts d) nid2 (le_trans hle hle2)
          (fun d' hd' => hfacts d' (List.mem_cons_of_mem _ hd'))
      refine ⟨.ok doc1 :: fs1, c', nid', ?_, ?_, ?_⟩
      · simp only [addNodesFrames]
        rw [hadd]
        dsimp only
        rw [hrun]
      · simp only [removeFrames]
        rw [hremd]
        dsimp only
        rw [hrem]
        simp [Except.map]
      · intro d1 hd1
        rcases List.mem_cons.mp hd1 with hd1 | hd1
        · obtain rfl := Except.ok.inj hd1
          exact hnild
        · exact hnil d1 hd1

/-- C3: after an `addNodes` pass with marker class `C` on a page that had no
`div.C` elements, `removeNodes C` raises no error, removes exactly the
`div.C` children of each document body (the overlays the pass created, and
nothing else), and leaves zero elements matching `div.C` in every reachable
document.  Hypotheses: the documents have bodies, distinct node identities
among body children, identities below the fresh supply, no pre-existing
`div.C` matches, well-formed selectors avoiding the inserted shapes, and
non-throwing callbacks. -/
theorem claim_C3_remove_after_add {α : Type} (p : Page) (ts : List Target)
    (C : String) (cb : Callbacks α) (dnd : Bool) (nid : Nat)
    (hbody : ∀ doc ∈ getAllDocuments p, doc.hasBody = true)
    (hnom : ∀ doc ∈ getAllDocuments p, doc.matchesOf (classSelector C) = [])
    (hnodup : ∀ doc ∈ getAllDocuments p,
      (doc.bodyChildren.map (fun x => x.data.eid)).Nodup)
    (hbound : ∀ doc ∈ getAllDocuments p, ∀ x ∈ doc.bodyChildren,
      x.data.eid < nid)
    (hsel : WellFormedSelectors ts) (havoid : AvoidingSelectors ts C)
    (hcb : CbOkAll cb ts) :
    ∃ p1 n, addNodes p ts C cb dnd nid = (p1, .ok n) ∧
      removeNodes p1 C = (pageMapDocs (bodyFilter C) p1, none) ∧
      ∀ doc ∈ getAllDocuments (pageMapDocs (bodyFilter C) p1),
        doc.matchesOf (classSelector C) = [] := by
  have htm := top_mem_getAllDocuments p
  obtain ⟨top1, nid2, haddT, hleT, hremT, hnilT⟩ :=
    doc_add_remove_spec cb dnd C ts p.top nid (hbody _ htm) (hnom _ htm)
      (hnodup _ htm) (hbound _ htm) hsel havoid hcb
  obtain ⟨fs1, c', nid', hrunF, hremF, hnilF⟩ :=
    frames_add_remove cb dnd C ts hsel havoid hcb nid p.frames
      (totVis ts p.top) nid2 hleT
      (fun d hd =>
        ⟨hbody d (mem_getAllDocuments_of_ok hd),
         hnom d (mem_getAllDocuments_of_ok hd),
         hnodup d (mem_getAllDocuments_of_ok hd),
         hbound d (mem_getAllDocuments_of_ok hd)⟩)
  refine ⟨⟨top1, fs1⟩, c', ?_, ?_, ?_⟩
  · unfold addNodes
    dsimp only
    rw [haddT]
    dsimp only
    rw [hrunF]
  · unfold removeNodes
    rw [hremT]
    dsimp only
    rw [hremF]
    rfl
  · intro doc hdoc
    rcases List.mem_cons.mp hdoc with rfl | hdoc
    · exact hnilT
    · rcases List.mem_filterMap.mp hdoc with ⟨fr, hfr, hfrd⟩
      rcases List.mem_map.mp hfr with ⟨fr0, hfr0, rfl⟩
      cases fr0 with
      | error e => simp [Except.map] at hfrd
      | ok d1 =>
        simp only [Except.map] at hfrd
        obtain rfl := Option.some.inj hfrd
        exact hnilF d1 hfr0

/-! ### C8: removeChild on a match that is not a body child -/

theorem removeChildById_none {i : Nat} :
    ∀ {cs : List DomTree}, i ∉ cs.map (fun c => c.data.eid) →
      removeChildById i cs = none := by
  intro cs
  induction cs with
  | nil => intro _; rfl
  | cons c cs ih =>
    intro h
    simp only [List.map_cons, List.mem_cons] at h
    push_neg at h
    obtain ⟨h1, h2⟩ := h
    rw [removeChildById_not_head (by simp; exact fun he => h1 he.symm)]
    rw [ih h2]
    rfl

theorem removeLoop_append_split :
    ∀ (es1 : List ElemData) (es2 : List ElemData) {rd : ElemData}
      {pre : List DomTree} {bd : ElemData} {bcs post cs' : List DomTree},
      PreFree pre → (bd.tag == "body") = true →
      removeIds (es1.map (fun e => e.eid)) bcs = some cs' →
      removeLoop (es1 ++ es2) (splitDoc rd pre bd bcs post) =
        removeLoop es2 (splitDoc rd pre bd cs' post) := by
  intro es1
  induction es1 with
  | nil =>
    intro es2 rd pre bd bcs post cs' hpre hbd h
    obtain rfl := Option.some.inj h
    rfl
  | cons e es ih =>
    intro es2 rd pre bd bcs post cs' hpre hbd h
    simp only [List.map_cons, removeIds] at h
    rcases hrc : removeChildById e.eid bcs with _ | bcs1
    · rw [hrc] at h; cases h
    · rw [hrc] at h
      have hrem : (splitDoc rd pre bd bcs post).removeChildFromBody e.eid =
          .ok (splitDoc rd pre bd bcs1 post) := by
        unfold Document.removeChildFromBody
        rw [body_splitDoc hpre hbd]
        simp only [DomTree.children, hrc]
        rw [updateBody_splitDoc hpre hbd]
      rw [List.cons_append]
      simp only [removeLoop, hrem]
      exact ih es2 hpre hbd h

/-- C8: `removeNodes` removes each matched element by calling `removeChild`
on the document body, so when the match list of the top document is
`m1 ++ bad :: m2` with the elements of `m1` direct body children (their
sequential removal yields children `cs'`) and `bad` not a direct body child,
the pass removes `m1`, throws `NotFoundError` at `bad`, removes none of the
later matches `m2`, and aborts before any other document is touched. -/
theorem claim_C8_remove_throws {p : Page} {C : String} {rd : ElemData}
    {pre : List DomTree} {bd : ElemData} {bcs post cs' : List DomTree}
    {m1 m2 : List ElemData} {bad : ElemData}
    (hsplit : p.top = splitDoc rd pre bd bcs post) (hpre : PreFree pre)
    (hbd : (bd.tag == "body") = true)
    (hm : (p.top.matchesOf (classSelector C)).map (fun x => x.1) =
      m1 ++ bad :: m2)
    (hrem : removeIds (m1.map (fun e => e.eid)) bcs = some cs')
    (hbad : bad.eid ∉ bcs.map (fun c => c.data.eid)) :
    removeNodes p C =
      ({ top := splitDoc rd pre bd cs' post, frames := p.frames },
        some .notFound) := by
  have hbad' : bad.eid ∉ cs'.map (fun c => c.data.eid) := by
    intro hmem
    exact hbad (((removeIds_sublist hrem).map (fun c => c.data.eid)).subset hmem)
  have hfd : removeFromDoc C p.top = (splitDoc rd pre bd cs' post,
      some .notFound) := by
    unfold removeFromDoc
    rw [hm, hsplit, removeLoop_append_split m1 (bad :: m2) hpre hbd hrem]
    exact removeLoop_abort hpre hbd (removeChildById_none hbad')
  unfold removeNodes
  rw [hfd]

/-- Witness for C8 on the concrete page `w8Page`: the body-child `div.mk`
is removed, the nested one triggers `NotFoundError`, and the pass aborts. -/
theorem claim_C8_witness :
    removeNodes w8Page "mk" =
      (⟨splitDoc (plainData 0 "html") [] (plainData 1 "body")
          [DomTree.mk (plainData 3 "section")
            [DomTree.mk { plainData 4 "div" with classes := ["mk"] } []]] [],
        []⟩, some .notFound) := by
  exact @claim_C8_remove_throws w8Page "mk" (plainData 0 "html") []
    (plainData 1 "body")
    [DomTree.mk { plainData 2 "div" with classes := ["mk"] } [],
     DomTree.mk (plainData 3 "section")
       [DomTree.mk { plainData 4 "div" with classes := ["mk"] } []]]
    []
    [DomTree.mk (plainData 3 "section")
       [DomTree.mk { plainData 4 "div" with classes := ["mk"] } []]]
    [{ plainData 2 "div" with classes := ["mk"] }]
    []
    { plainData 4 "div" with classes := ["mk"] }
    rfl (fun c hc => absurd hc (List.not_mem_nil c)) rfl rfl rfl (by decide)

/-! ### C5: exceptions propagate and abort the pass, keeping prior overlays -/

theorem processTargets_append {α : Type} (cb : Callbacks α) (dnd : Bool)
    (C : String) :
    ∀ (ts1 ts2 : List Target) (s : AddState),
      processTargets cb dnd C (ts1 ++ ts2) s =
        (match processTargets cb dnd C ts1 s with
         | (s1, none) => processTargets cb dnd C ts2 s1
         | (s1, some e) => (s1, some e)) := by
  intro ts1
  induction ts1 with
  | nil =>
    intro ts2 s
    rfl
  | cons t ts1 ih =>
    intro ts2 s
    rw [List.cons_append]
    simp only [processTargets]
    rcases hpt : processTarget cb dnd C s t with ⟨s1, r1⟩
    rcases r1 with _ | e1
    · exact ih ts2 s1
    · rfl

theorem processElements_error_getInfo {α : Type} {cb : Callbacks α}
    {dnd : Bool} {C : String} {tbad : Target}
    {g : ElemData → Target → Except DomError α} (hg : cb.getInfo = some g)
    (hthrow : ∀ d, g d tbad = .error .callbackError) :
    ∀ (els : List (ElemData × List ElemData)) (s : AddState),
      (∃ e ∈ els, isVisible e.1 e.2 = true) →
      processElements cb dnd C tbad els s = (s, some .callbackError) := by
  intro els
  induction els with
  | nil =>
    intro s h
    obtain ⟨e, he, _⟩ := h
    cases he
  | cons e es ih =>
    intro s hex
    rcases hv : isVisible e.1 e.2 with _ | _
    · have hpe : processElement cb dnd C tbad s e = (s, none) :=
        processElement_invisible hv
      simp only [processElements]
      rw [hpe]
      apply ih
      obtain ⟨x, hx, hvx⟩ := hex
      rcases List.mem_cons.mp hx with rfl | hx
      · rw [hv] at hvx; cases hvx
      · exact ⟨x, hx, hvx⟩
    · have hpe : processElement cb dnd C tbad s e = (s, some .callbackError) := by
        unfold processElement
        rw [hv]
        simp only [Bool.not_true, Bool.false_eq_true, if_false, hg]
        rw [hthrow e.1]
      simp only [processElements]
      rw [hpe]

theorem processElements_error_nobody {α : Type} {cb : Callbacks α} {dnd : Bool}
    {C : String} {t : Target} (hcbt : CbOkFor cb t) :
    ∀ (els : List (ElemData × List ElemData)) (s : AddState),
      s.doc.body = none → (∃ e ∈ els, isVisible e.1 e.2 = true) →
      processElements cb dnd C t els s = (s, some .nullDeref) := by
  intro els
  induction els with
  | nil =>
    intro s _ h
    obtain ⟨e, he, _⟩ := h
    cases he
  | cons e es ih =>
    intro s hnb hex
    rcases hv : isVisible e.1 e.2 with _ | _
    · have hpe : processElement cb dnd C t s e = (s, none) :=
        processElement_invisible hv
      simp only [processElements]
      rw [hpe]
      apply ih _ hnb
      obtain ⟨x, hx, hvx⟩ := hex
      rcases List.mem_cons.mp hx with rfl | hx
      · rw [hv] at hvx; cases hvx
      · exact ⟨x, hx, hvx⟩
    · obtain ⟨⟨g, hg, hgi⟩, hev⟩ := hcbt
      obtain ⟨i, hi⟩ := hgi e.1
      have hevr : (match cb.evalInfo with
          | none => Except.ok ()
          | some ev => ev i t) = Except.ok () := by
        rcases he : cb.evalInfo with _ | ev
        · rfl
        · exact hev ev he i
      have happ : s.doc.appendChildToBody
          (titledOverlay s.nid C (cb.fmt i)) = .error .nullDeref := by
        unfold Document.appendChildToBody
        rw [hnb]
      have hpe : processElement cb dnd C t s e = (s, some .nullDeref) := by
        unfold processElement
        rw [hv]
        simp only [Bool.not_true, Bool.false_eq_true, if_false, hg]
        rw [hi]
        dsimp only
        rw [hevr]
        dsimp only
        simp only [addDragAndDrop, ite_self]
        have hset : setFirstChildTitle (createOverlay s.nid C) (cb.fmt i) =
            .ok (titledOverlay s.nid C (cb.fmt i)) := rfl
        rw [hset]
        dsimp only
        rw [happ]
      simp only [processElements]
      rw [hpe]

theorem insertStylesheet_split {doc : Document} (nid : Nat)
    (hbody : doc.hasBody = true) :
    ∃ rd pre bd bcs post pre1 nid1, doc = splitDoc rd pre bd bcs post ∧
      PreFree pre ∧ (bd.tag == "body") = true ∧ PreLink pre1 pre nid nid1 ∧
      PreFree pre1 ∧
      insertStylesheet doc nid = (splitDoc rd pre1 bd bcs post, nid1) := by
  obtain ⟨rd, pre, bd, bcs, post, hdoc, hpre, hbd⟩ := hasBody_splitDoc hbody
  subst hdoc
  rcases hss : (splitDoc rd pre bd bcs post).hasStylesheet with _ | _
  · exact ⟨rd, pre, bd, bcs, post, DomTree.mk (linkElem nid) [] :: pre,
      nid + 1, rfl, hpre, hbd, Or.inr ⟨rfl, rfl⟩, preFree_link hpre,
      insertStylesheet_splitDoc_not hss⟩
  · exact ⟨rd, pre, bd, bcs, post, pre, nid, rfl, hpre, hbd,
      Or.inl ⟨rfl, rfl⟩, hpre, insertStylesheet_has hss⟩

theorem matchesOf_prepend_root {q : ElemData → Bool} {doc : Document}
    {rd : ElemData} {rcs : List DomTree} {n : Nat}
    (hroot : doc.root = some (.mk rd rcs)) (hq : q (linkElem n) = false) :
    Document.matchesOf ⟨some (.mk rd (DomTree.mk (linkElem n) [] :: rcs))⟩ q =
      doc.matchesOf q := by
  simp [Document.matchesOf, Document.collectPairs, hroot, collect, collectList,
    List.filter_append, List.filter_cons, hq]

theorem insertStylesheet_nobody {doc : Document} {nid : Nat}
    (h : doc.body = none) :
    (insertStylesheet doc nid).1.body = none ∧
    ∀ q : ElemData → Bool, q (linkElem nid) = false →
      (insertStylesheet doc nid).1.matchesOf q = doc.matchesOf q := by
  rcases hss : doc.hasStylesheet with _ | _
  · rcases hroot : doc.root with _ | r
    · rw [show (insertStylesheet doc nid).1 = doc from by
        simp [insertStylesheet, hss, hroot]]
      exact ⟨h, fun q _ => rfl⟩
    · rcases r with ⟨rd, rcs⟩
      have hres : (insertStylesheet doc nid).1 =
          ⟨some (.mk rd (DomTree.mk (linkElem nid) [] :: rcs))⟩ := by
        simp [insertStylesheet, hss, hroot]
      rw [hres]
      constructor
      · unfold Document.body at h ⊢
        rw [hroot] at h
        have h' : rcs.find? (fun c => c.data.tag == "body") = none := h
        show (DomTree.mk (linkElem nid) [] :: rcs).find?
          (fun c => c.data.tag == "body") = none
        rw [List.find?_cons_of_neg _ (by simp [DomTree.data, linkElem])]
        exact h'
      · intro q hq
        exact matchesOf_prepend_root hroot hq
  · rw [show (insertStylesheet doc nid).1 = doc from by
      simp [insertStylesheet, hss]]
    exact ⟨h, fun q _ => rfl⟩

theorem exists_visible_of_pos {t : Target} {q : ElemData → Bool}
    {doc : Document} (hq : t.selector = Selector.pred q)
    (hpos : 1 ≤ visibleCount t doc) :
    ∃ e ∈ applyFilter t (doc.matchesOf q), isVisible e.1 e.2 = true := by
  unfold visibleCount at hpos
  rw [hq] at hpos
  dsimp only at hpos
  have hne : (applyFilter t (doc.matchesOf q)).filter
      (fun x => isVisible x.1 x.2) ≠ [] := by
    intro hnil
    rw [hnil] at hpos
    simp at hpos
  obtain ⟨x, hx⟩ := List.exists_mem_of_ne_nil _ hne
  exact ⟨x, (List.mem_filter.mp hx).1, (List.mem_filter.mp hx).2⟩

theorem processElements_error_evalInfo {α : Type} {cb : Callbacks α}
    {dnd : Bool} {C : String} {tbad : Target}
    {g : ElemData → Target → Except DomError α}
    {ev : α → Target → Except DomError Unit} (hg : cb.getInfo = some g)
    (hgi : ∀ d, ∃ i, g d tbad = .ok i) (hev : cb.evalInfo = some ev)
    (hthrow : ∀ i, ev i tbad = .error .callbackError) :
    ∀ (els : List (ElemData × List ElemData)) (s : AddState),
      (∃ e ∈ els, isVisible e.1 e.2 = true) →
      processElements cb dnd C tbad els s = (s, some .callbackError) := by
  intro els
  induction els with
  | nil =>
    intro s h
    obtain ⟨e, he, _⟩ := h
    cases he
  | cons e es ih =>
    intro s hex
    rcases hv : isVisible e.1 e.2 with _ | _
    · have hpe : processElement cb dnd C tbad s e = (s, none) :=
        processElement_invisible hv
      simp only [processElements]
      rw [hpe]
      apply ih
      obtain ⟨x, hx, hvx⟩ := hex
      rcases List.mem_cons.mp hx with rfl | hx
      · rw [hv] at hvx; cases hvx
      · exact ⟨x, hx, hvx⟩
    · obtain ⟨i, hi⟩ := hgi e.1
      have hevr : (match cb.evalInfo with
          | none => Except.ok ()
          | some ev' => ev' i tbad) =
          Except.error DomError.callbackError := by
        rw [hev]
        exact hthrow i
      have hpe : processElement cb dnd C tbad s e =
          (s, some .callbackError) := by
        unfold processElement
        rw [hv]
        simp only [Bool.not_true, Bool.false_eq_true, if_false, hg]
        rw [hi]
        dsimp only
        rw [hevr]
      simp only [processElements]
      rw [hpe]

theorem insertStylesheet_classCount (doc : Document) (n : Nat) (C : String) :
    docClassCount C (insertStylesheet doc n).1 = docClassCount C doc := by
  rcases hss : doc.hasStylesheet with _ | _
  · rcases hroot : doc.root with _ | r
    · rw [show (insertStylesheet doc n).1 = doc from by
        simp [insertStylesheet, hss, hroot]]
    · rcases r with ⟨rd, rcs⟩
      have hres : (insertStylesheet doc n).1 =
          ⟨some (.mk rd (DomTree.mk (linkElem n) [] :: rcs))⟩ := by
        simp [insertStylesheet, hss, hroot]
      rw [hres]
      unfold docClassCount
      rw [matchesOf_prepend_root hroot rfl]
  · rw [show (insertStylesheet doc n).1 = doc from by
      simp [insertStylesheet, hss]]

theorem addNodesDoc_error_getInfo {α : Type} {cb : Callbacks α} {dnd : Bool}
    {C : String} {ts1 ts2 : List Target} {tbad : Target}
    {g : ElemData → Target → Except DomError α} {qb : ElemData → Bool}
    (dbad : Document) (hbody : dbad.hasBody = true)
    (hsel : WellFormedSelectors ts1) (havoid : AvoidingSelectors ts1 C)
    (hcb : CbOkAll cb ts1) (hg : cb.getInfo = some g)
    (hthrow : ∀ d, g d tbad = .error .callbackError)
    (hqb : tbad.selector = Selector.pred qb) (hav : InsertAvoiding qb C)
    (hge : 1 ≤ visibleCount tbad dbad) :
    ∀ n, ∃ d' c' n', addNodesDoc dbad (ts1 ++ tbad :: ts2) C cb dnd n =
      (d', c', n', some .callbackError) ∧ AddedOverlays C ts1 dbad d' := by
  intro n
  obtain ⟨rd, pre, bd, bcs, post, pre1, nid1, hdoc, hpre, hbd, hpl, hpre1,
    hins⟩ := insertStylesheet_split n hbody
  obtain ⟨s1, ovs, hrun1, hov1, hcnt1, hlen1, hdoc1⟩ :=
    processTargets_spec cb dnd C ts1 ⟨splitDoc rd pre1 bd bcs post, 0, nid1⟩
      rd pre1 bd bcs post rfl hpre1 hbd hsel havoid
      (fun t ht => Or.inl (hcb t ht))
  have havq : ∀ q, tbad.selector = Selector.pred q → InsertAvoiding q C := by
    intro q hq'
    rw [hqb] at hq'
    injection hq' with hh
    rw [← hh]
    exact hav
  have hvc : visibleCount tbad s1.doc = visibleCount tbad dbad := by
    rw [hdoc1, hdoc]
    calc visibleCount tbad (splitDoc rd pre1 bd (bcs ++ ovs) post)
        = visibleCount tbad (splitDoc rd pre1 bd bcs post) :=
          visibleCount_append_stable hov1 tbad havq
      _ = visibleCount tbad (splitDoc rd pre bd bcs post) :=
          visibleCount_prelink_stable hpl tbad havq
  have hexvis : ∃ e ∈ applyFilter tbad (s1.doc.matchesOf qb),
      isVisible e.1 e.2 = true :=
    exists_visible_of_pos hqb (by rw [hvc]; exact hge)
  have hhead : processTargets cb dnd C (tbad :: ts2) s1 =
      (s1, some .callbackError) := by
    simp only [processTargets]
    rw [show processTarget cb dnd C s1 tbad = (s1, some .callbackError) from by
      unfold processTarget
      rw [hqb]
      exact processElements_error_getInfo hg hthrow _ s1 hexvis]
  have hfull : processTargets cb dnd C (ts1 ++ tbad :: ts2)
      ⟨splitDoc rd pre1 bd bcs post, 0, nid1⟩ = (s1, some .callbackError) := by
    rw [processTargets_append, hrun1]
    exact hhead
  refine ⟨s1.doc, s1.counter, s1.nid, ?_, ?_⟩
  · simp only [addNodesDoc]
    rw [hins]
    dsimp only
    rw [hfull]
  · show docClassCount C s1.doc = docClassCount C dbad + totVis ts1 dbad
    rw [hdoc1, hdoc, docClassCount_after hpl hov1, hlen1]
    congr 1
    exact totVis_prelink_stable hpl havoid

theorem addNodesDoc_error_evalInfo {α : Type} {cb : Callbacks α} {dnd : Bool}
    {C : String} {ts1 ts2 : List Target} {tbad : Target}
    {g : ElemData → Target → Except DomError α}
    {ev : α → Target → Except DomError Unit} {qb : ElemData → Bool}
    (dbad : Document) (hbody : dbad.hasBody = true)
    (hsel : WellFormedSelectors ts1) (havoid : AvoidingSelectors ts1 C)
    (hcb : CbOkAll cb ts1) (hg : cb.getInfo = some g)
    (hgi : ∀ d, ∃ i, g d tbad = .ok i) (hev : cb.evalInfo = some ev)
    (hthrow : ∀ i, ev i tbad = .error .callbackError)
    (hqb : tbad.selector = Selector.pred qb) (hav : InsertAvoiding qb C)
    (hge : 1 ≤ visibleCount tbad dbad) :
    ∀ n, ∃ d' c' n', addNodesDoc dbad (ts1 ++ tbad :: ts2) C cb dnd n =
      (d', c', n', some .callbackError) ∧ AddedOverlays C ts1 dbad d' := by
  intro n
  obtain ⟨rd, pre, bd, bcs, post, pre1, nid1, hdoc, hpre, hbd, hpl, hpre1,
    hins⟩ := insertStylesheet_split n hbody
  obtain ⟨s1, ovs, hrun1, hov1, hcnt1, hlen1, hdoc1⟩ :=
    processTargets_spec cb dnd C ts1 ⟨splitDoc rd pre1 bd bcs post, 0, nid1⟩
      rd pre1 bd bcs post rfl hpre1 hbd hsel havoid
      (fun t ht => Or.inl (hcb t ht))
  have havq : ∀ q, tbad.selector = Selector.pred q → InsertAvoiding q C := by
    intro q hq'
    rw [hqb] at hq'
    injection hq' with hh
    rw [← hh]
    exact hav
  have hvc : visibleCount tbad s1.doc = visibleCount tbad dbad := by
    rw [hdoc1, hdoc]
    calc visibleCount tbad (splitDoc rd pre1 bd (bcs ++ ovs) post)
        = visibleCount tbad (splitDoc rd pre1 bd bcs post) :=
          visibleCount_append_stable hov1 tbad havq
      _ = visibleCount tbad (splitDoc rd pre bd bcs post) :=
          visibleCount_prelink_stable hpl tbad havq
  have hexvis : ∃ e ∈ applyFilter tbad (s1.doc.matchesOf qb),
      isVisible e.1 e.2 = true :=
    exists_visible_of_pos hqb (by rw [hvc]; exact hge)
  have hhead : processTargets cb dnd C (tbad :: ts2) s1 =
      (s1, some .callbackError) := by
    simp only [processTargets]
    rw [show processTarget cb dnd C s1 tbad = (s1, some .callbackError) from by
      unfold processTarget
      rw [hqb]
      exact processElements_error_evalInfo hg hgi hev hthrow _ s1 hexvis]
  have hfull : processTargets cb dnd C (ts1 ++ tbad :: ts2)
      ⟨splitDoc rd pre1 bd bcs post, 0, nid1⟩ = (s1, some .callbackError) := by
    rw [processTargets_append, hrun1]
    exact hhead
  refine ⟨s1.doc, s1.counter, s1.nid, ?_, ?_⟩
  · simp only [addNodesDoc]
    rw [hins]
    dsimp only
    rw [hfull]
  · show docClassCount C s1.doc = docClassCount C dbad + totVis ts1 dbad
    rw [hdoc1, hdoc, docClassCount_after hpl hov1, hlen1]
    congr 1
    exact totVis_prelink_stable hpl havoid

theorem addNodesDoc_error_nobody {α : Type} {cb : Callbacks α} {dnd : Bool}
    {C : String} {t1 : Target} {ts2 : List Target} {q1 : ElemData → Bool}
    (dbad : Document) (hnb : dbad.body = none)
    (ht1 : t1.selector = Selector.pred q1) (hcbt : CbOkFor cb t1)
    (hav : InsertAvoiding q1 C) (hge : 1 ≤ visibleCount t1 dbad) :
    ∀ n, addNodesDoc dbad (t1 :: ts2) C cb dnd n =
      ((insertStylesheet dbad n).1, 0, (insertStylesheet dbad n).2,
        some .nullDeref) := by
  intro n
  obtain ⟨hnb1, hst⟩ := @insertStylesheet_nobody dbad n hnb
  have hvc : visibleCount t1 (insertStylesheet dbad n).1 =
      visibleCount t1 dbad := by
    unfold visibleCount
    rw [ht1]
    dsimp only
    rw [hst q1 (hav.1 n)]
  have hexvis : ∃ e ∈ applyFilter t1
      ((insertStylesheet dbad n).1.matchesOf q1),
      isVisible e.1 e.2 = true :=
    exists_visible_of_pos ht1 (by rw [hvc]; exact hge)
  have hpt : processTargets cb dnd C (t1 :: ts2)
      ⟨(insertStylesheet dbad n).1, 0, (insertStylesheet dbad n).2⟩ =
      (⟨(insertStylesheet dbad n).1, 0, (insertStylesheet dbad n).2⟩,
        some .nullDeref) := by
    simp only [processTargets]
    rw [show processTarget cb dnd C
        ⟨(insertStylesheet dbad n).1, 0, (insertStylesheet dbad n).2⟩
        t1 = (⟨(insertStylesheet dbad n).1, 0,
          (insertStylesheet dbad n).2⟩, some .nullDeref) from by
      unfold processTarget
      rw [ht1]
      exact processElements_error_nobody hcbt _ _ hnb1 hexvis]
  simp only [addNodesDoc]
  rw [hpt]

theorem addNodesFrames_clean_then_error {α : Type} (cb : Callbacks α)
    (dnd : Bool) (C : String) (ts : List Target) {E : DomError} :
    ∀ (fs1 : List (Except DomError Document))
      (fsb : List (Except DomError Document)) (dbad : Document) (c nid : Nat)
      (fs1' : List (Except DomError Document)) (c1 nid1 : Nat),
      addNodesFrames ts C cb dnd fs1 c nid = (fs1', c1, nid1, none) →
      ∀ (dbad' : Document) (dc nid2 : Nat),
        addNodesDoc dbad ts C cb dnd nid1 = (dbad', dc, nid2, some E) →
        addNodesFrames ts C cb dnd (fs1 ++ .ok dbad :: fsb) c nid =
          (fs1' ++ .ok dbad' :: fsb, c1 + dc, nid2, some E) := by
  intro fs1
  induction fs1 with
  | nil =>
    intro fsb dbad c nid fs1' c1 nid1 hA dbad' dc nid2 hB
    simp only [addNodesFrames, Prod.mk.injEq] at hA
    obtain ⟨h1, h3, h5, _⟩ := hA
    subst h1
    subst h3
    subst h5
    simp only [List.nil_append, addNodesFrames]
    rw [hB]
  | cons f fs1 ih =>
    intro fsb dbad c nid fs1' c1 nid1 hA dbad' dc nid2 hB
    cases f with
    | error e =>
      rcases hr : addNodesFrames ts C cb dnd fs1 c nid with ⟨fsr, cr, nidr, errr⟩
      simp only [addNodesFrames] at hA
      rw [hr] at hA
      dsimp only at hA
      simp only [Prod.mk.injEq] at hA
      obtain ⟨h1, h3, h5, h6⟩ := hA
      subst h6
      subst h5
      subst h3
      subst h1
      simp only [List.cons_append, addNodesFrames, List.append_eq]
      rw [ih fsb dbad c nid fsr cr _ hr dbad' dc nid2 hB]
    | ok d =>
      rcases h0 : addNodesDoc d ts C cb dnd nid with ⟨d1, cd, nidd, err0⟩
      simp only [addNodesFrames] at hA
      rw [h0] at hA
      dsimp only at hA
      cases err0 with
      | some e =>
        exfalso
        simp only [Prod.mk.injEq] at hA
        exact Option.noConfusion hA.2.2.2
      | none =>
        rcases hr : addNodesFrames ts C cb dnd fs1 (c + cd) nidd
          with ⟨fsr, cr, nidr, errr⟩
        rw [hr] at hA
        dsimp only at hA
        simp only [Prod.mk.injEq] at hA
        obtain ⟨h1, h3, h5, h6⟩ := hA
        subst h6
        subst h5
        subst h3
        subst h1
        simp only [List.cons_append, addNodesFrames, List.append_eq]
        rw [h0]
        dsimp only
        rw [ih fsb dbad (c + cd) nidd fsr cr _ hr dbad' dc nid2 hB]

theorem addNodes_error_at_top {α : Type} {cb : Callbacks α} {dnd : Bool}
    {C : String} {ts : List Target} {E : DomError} {Rbad : Document → Prop}
    (p : Page) (nid : Nat)
    (hbadrun : ∃ d' c' n', addNodesDoc p.top ts C cb dnd nid =
      (d', c', n', some E) ∧ Rbad d') :
    ∃ p', addNodes p ts C cb dnd nid = (p', .error E) ∧
      p'.frames = p.frames ∧ Rbad p'.top := by
  obtain ⟨d', c', n', hrun, hR⟩ := hbadrun
  refine ⟨⟨d', p.frames⟩, ?_, rfl, hR⟩
  unfold addNodes
  dsimp only
  rw [hrun]

theorem addNodes_error_at_frame {α : Type} {cb : Callbacks α} {dnd : Bool}
    {C : String} {ts : List Target} {E : DomError} {Rbad : Document → Prop}
    (hsel : WellFormedSelectors ts) (havoid : AvoidingSelectors ts C)
    (p : Page) (fsa fsb : List (Except DomError Document)) (dbad : Document)
    (nid : Nat) (hframes : p.frames = fsa ++ .ok dbad :: fsb)
    (htopb : p.top.hasBody = true)
    (htopmix : ∀ t ∈ ts, CbOkFor cb t ∨ visibleCount t p.top = 0)
    (hfsa : ∀ d, Except.ok d ∈ fsa → d.hasBody = true ∧
      ∀ t ∈ ts, CbOkFor cb t ∨ visibleCount t d = 0)
    (hbadrun : ∀ n, ∃ d' c' n', addNodesDoc dbad ts C cb dnd n =
      (d', c', n', some E) ∧ Rbad d') :
    ∃ top' fsa' dbad',
      addNodes p ts C cb dnd nid = (⟨top', fsa' ++ .ok dbad' :: fsb⟩, .error E) ∧
      AddedOverlays C ts p.top top' ∧
      List.Forall₂ (FrameRel (AddedOverlays C ts)) fsa fsa' ∧
      Rbad dbad' := by
  obtain ⟨rd, pre, bd, bcs, post, pre1, nid1, ovs, nid2, hdoc, hpre, hbdt, hpl,
    hpre1, hov, hle, hlen, haddT⟩ :=
    addNodesDoc_spec cb dnd C ts p.top nid htopb hsel havoid htopmix
  have htopc : AddedOverlays C ts p.top
      (splitDoc rd pre1 bd (bcs ++ ovs) post) := by
    show docClassCount C (splitDoc rd pre1 bd (bcs ++ ovs) post) =
      docClassCount C p.top + totVis ts p.top
    rw [docClassCount_after hpl hov, ← hdoc, hlen]
  obtain ⟨fsa', nid3, hrunA, hclsA, hfa⟩ :=
    addNodesFrames_spec cb dnd C ts hsel havoid fsa (totVis ts p.top) nid2 hfsa
  obtain ⟨dbad', dc, nid4, hrunB, hRb⟩ := hbadrun nid3
  have hfr := addNodesFrames_clean_then_error cb dnd C ts fsa fsb dbad
    (totVis ts p.top) nid2 fsa' _ nid3 hrunA dbad' dc nid4 hrunB
  refine ⟨splitDoc rd pre1 bd (bcs ++ ovs) post, fsa', dbad', ?_, htopc, hfa,
    hRb⟩
  unfold addNodes
  dsimp only
  rw [haddT]
  dsimp only
  rw [hframes, hfr]

/-- C5: during an `addNodes` pass, a malformed selector, a missing document
body at overlay insertion, or a throwing `getInfo` or `evalInfo` callback is
not caught: `addNodes` raises the exception (`SyntaxError`, `TypeError`, or
the callback's error) and aborts the pass, and every overlay already
inserted earlier in that same pass remains in its document (no rollback).  A
malformed selector necessarily aborts while the first reachable document
(the top) is processed, since every document processes the full target
list; each of the other three triggers is proved both failing at the top
document and failing at an arbitrary accessible iframe document, with the
documents processed earlier keeping exactly their new overlays and the
frames after the failing one left untouched. -/
theorem claim_C5_exceptions_abort (α : Type) :
    (∀ (p : Page) (ts1 ts2 : List Target) (tbad : Target) (C : String)
        (cb : Callbacks α) (dnd : Bool) (nid : Nat),
        p.top.hasBody = true → WellFormedSelectors ts1 →
        AvoidingSelectors ts1 C → CbOkAll cb ts1 →
        tbad.selector = Selector.malformed →
        ∃ p', addNodes p (ts1 ++ tbad :: ts2) C cb dnd nid =
            (p', .error .syntaxError) ∧ p'.frames = p.frames ∧
          AddedOverlays C ts1 p.top p'.top) ∧
    (∀ (p : Page) (ts1 ts2 : List Target) (tbad : Target) (C : String)
        (cb : Callbacks α) (dnd : Bool) (nid : Nat)
        (g : ElemData → Target → Except DomError α) (qb : ElemData → Bool),
        p.top.hasBody = true → WellFormedSelectors ts1 →
        AvoidingSelectors ts1 C → CbOkAll cb ts1 →
        cb.getInfo = some g → (∀ d, g d tbad = .error .callbackError) →
        tbad.selector = Selector.pred qb → InsertAvoiding qb C →
        1 ≤ visibleCount tbad p.top →
        ∃ p', addNodes p (ts1 ++ tbad :: ts2) C cb dnd nid =
            (p', .error .callbackError) ∧ p'.frames = p.frames ∧
          AddedOverlays C ts1 p.top p'.top) ∧
    (∀ (p : Page) (fsa fsb : List (Except DomError Document))
        (dbad : Document) (ts1 ts2 : List Target) (tbad : Target) (C : String)
        (cb : Callbacks α) (dnd : Bool) (nid : Nat)
        (g : ElemData → Target → Except DomError α) (qb : ElemData → Bool),
        p.frames = fsa ++ .ok dbad :: fsb →
        WellFormedSelectors (ts1 ++ tbad :: ts2) →
        AvoidingSelectors (ts1 ++ tbad :: ts2) C →
        CbOkAll cb ts1 → CbOkAll cb ts2 →
        cb.getInfo = some g → (∀ d, g d tbad = .error .callbackError) →
        tbad.selector = Selector.pred qb →
        p.top.hasBody = true → visibleCount tbad p.top = 0 →
        (∀ d, Except.ok d ∈ fsa → d.hasBody = true ∧
          visibleCount tbad d = 0) →
        dbad.hasBody = true → 1 ≤ visibleCount tbad dbad →
        ∃ top' fsa' dbad',
          addNodes p (ts1 ++ tbad :: ts2) C cb dnd nid =
            (⟨top', fsa' ++ .ok dbad' :: fsb⟩, .error .callbackError) ∧
          AddedOverlays C (ts1 ++ tbad :: ts2) p.top top' ∧
          List.Forall₂ (FrameRel (AddedOverlays C (ts1 ++ tbad :: ts2)))
            fsa fsa' ∧
          AddedOverlays C ts1 dbad dbad') ∧
    (∀ (p : Page) (ts1 ts2 : List Target) (tbad : Target) (C : String)
        (cb : Callbacks α) (dnd : Bool) (nid : Nat)
        (g : ElemData → Target → Except DomError α)
        (ev : α → Target → Except DomError Unit) (qb : ElemData → Bool),
        p.top.hasBody = true → WellFormedSelectors ts1 →
        AvoidingSelectors ts1 C → CbOkAll cb ts1 →
        cb.getInfo = some g → (∀ d, ∃ i, g d tbad = .ok i) →
        cb.evalInfo = some ev → (∀ i, ev i tbad = .error .callbackError) →
        tbad.selector = Selector.pred qb → InsertAvoiding qb C →
        1 ≤ visibleCount tbad p.top →
        ∃ p', addNodes p (ts1 ++ tbad :: ts2) C cb dnd nid =
            (p', .error .callbackError) ∧ p'.frames = p.frames ∧
          AddedOverlays C ts1 p.top p'.top) ∧
    (∀ (p : Page) (fsa fsb : List (Except DomError Document))
        (dbad : Document) (ts1 ts2 : List Target) (tbad : Target) (C : String)
        (cb : Callbacks α) (dnd : Bool) (nid : Nat)
        (g : ElemData → Target → Except DomError α)
        (ev : α → Target → Except DomError Unit) (qb : ElemData → Bool),
        p.frames = fsa ++ .ok dbad :: fsb →
        WellFormedSelectors (ts1 ++ tbad :: ts2) →
        AvoidingSelectors (ts1 ++ tbad :: ts2) C →
        CbOkAll cb ts1 → CbOkAll cb ts2 →
        cb.getInfo = some g → (∀ d, ∃ i, g d tbad = .ok i) →
        cb.evalInfo = some ev → (∀ i, ev i tbad = .error .callbackError) →
        tbad.selector = Selector.pred qb →
        p.top.hasBody = true → visibleCount tbad p.top = 0 →
        (∀ d, Except.ok d ∈ fsa → d.hasBody = true ∧
          visibleCount tbad d = 0) →
        dbad.hasBody = true → 1 ≤ visibleCount tbad dbad →
        ∃ top' fsa' dbad',
          addNodes p (ts1 ++ tbad :: ts2) C cb dnd nid =
            (⟨top', fsa' ++ .ok dbad' :: fsb⟩, .error .callbackError) ∧
          AddedOverlays C (ts1 ++ tbad :: ts2) p.top top' ∧
          List.Forall₂ (FrameRel (AddedOverlays C (ts1 ++ tbad :: ts2)))
            fsa fsa' ∧
          AddedOverlays C ts1 dbad dbad') ∧
    (∀ (p : Page) (t1 : Target) (ts2 : List Target) (C : String)
        (cb : Callbacks α) (dnd : Bool) (nid : Nat) (q1 : ElemData → Bool),
        p.top.body = none → t1.selector = Selector.pred q1 →
        CbOkFor cb t1 → InsertAvoiding q1 C → 1 ≤ visibleCount t1 p.top →
        ∃ p', addNodes p (t1 :: ts2) C cb dnd nid = (p', .error .nullDeref) ∧
          p'.frames = p.frames ∧ p'.top = (insertStylesheet p.top nid).1) ∧
    (∀ (p : Page) (fsa fsb : List (Except DomError Document))
        (dbad : Document) (t1 : Target) (ts2 : List Target) (C : String)
        (cb : Callbacks α) (dnd : Bool) (nid : Nat) (q1 : ElemData → Bool),
        p.frames = fsa ++ .ok dbad :: fsb →
        WellFormedSelectors (t1 :: ts2) → AvoidingSelectors (t1 :: ts2) C →
        CbOkAll cb (t1 :: ts2) →
        p.top.hasBody = true → (∀ d, Except.ok d ∈ fsa → d.hasBody = true) →
        dbad.body = none → t1.selector = Selector.pred q1 →
        1 ≤ visibleCount t1 dbad →
        ∃ top' fsa' dbad',
          addNodes p (t1 :: ts2) C cb dnd nid =
            (⟨top', fsa' ++ .ok dbad' :: fsb⟩, .error .nullDeref) ∧
          AddedOverlays C (t1 :: ts2) p.top top' ∧
          List.Forall₂ (FrameRel (AddedOverlays C (t1 :: ts2))) fsa fsa' ∧
          docClassCount C dbad' = docClassCount C dbad) := by
  refine ⟨?_, ?_, ?_, ?_, ?_, ?_, ?_⟩
  · intro p ts1 ts2 tbad C cb dnd nid hbody hsel havoid hcb hbad
    obtain ⟨rd, pre, bd, bcs, post, pre1, nid1, hdoc, hpre, hbd, hpl, hpre1,
      hins⟩ := insertStylesheet_split nid hbody
    obtain ⟨s1, ovs, hrun1, hov1, hcnt1, hlen1, hdoc1⟩ :=
      processTargets_spec cb dnd C ts1 ⟨splitDoc rd pre1 bd bcs post, 0, nid1⟩
        rd pre1 bd bcs post rfl hpre1 hbd hsel havoid
        (fun t ht => Or.inl (hcb t ht))
    have hhead : processTargets cb dnd C (tbad :: ts2) s1 =
        (s1, some .syntaxError) := by
      simp only [processTargets]
      rw [show processTarget cb dnd C s1 tbad = (s1, some .syntaxError) from by
        unfold processTarget
        rw [hbad]]
    have hfull : processTargets cb dnd C (ts1 ++ tbad :: ts2)
        ⟨splitDoc rd pre1 bd bcs post, 0, nid1⟩ = (s1, some .syntaxError) := by
      rw [processTargets_append, hrun1]
      exact hhead
    have haddDoc : addNodesDoc p.top (ts1 ++ tbad :: ts2) C cb dnd nid =
        (s1.doc, s1.counter, s1.nid, some .syntaxError) := by
      simp only [addNodesDoc]
      rw [hins]
      dsimp only
      rw [hfull]
    have hres : addNodes p (ts1 ++ tbad :: ts2) C cb dnd nid =
        ({ top := s1.doc, frames := p.frames }, .error .syntaxError) := by
      unfold addNodes
      dsimp only
      rw [haddDoc]
    refine ⟨⟨s1.doc, p.frames⟩, hres, rfl, ?_⟩
    show docClassCount C s1.doc = docClassCount C p.top + totVis ts1 p.top
    rw [hdoc1, hdoc, docClassCount_after hpl hov1, hlen1]
    congr 1
    exact totVis_prelink_stable hpl havoid
  · intro p ts1 ts2 tbad C cb dnd nid g qb hbody hsel havoid hcb hg hthrow hqb
      hav hge
    exact addNodes_error_at_top p nid
      (addNodesDoc_error_getInfo p.top hbody hsel havoid hcb hg hthrow hqb hav
        hge nid)
  · intro p fsa fsb dbad ts1 ts2 tbad C cb dnd nid g qb hframes hsel havoid
      hcb1 hcb2 hg hthrow hqb htopb htop0 hfsa0 hbadb hge
    have hsel1 : WellFormedSelectors ts1 :=
      fun t ht => hsel t (List.mem_append_left _ ht)
    have havoid1 : AvoidingSelectors ts1 C :=
      fun t ht => havoid t (List.mem_append_left _ ht)
    have hav : InsertAvoiding qb C :=
      havoid tbad (List.mem_append_right _ (List.mem_cons_self _ _)) qb hqb
    have hmixall : ∀ (d : Document), visibleCount tbad d = 0 →
        ∀ t ∈ ts1 ++ tbad :: ts2, CbOkFor cb t ∨ visibleCount t d = 0 := by
      intro d h0 t ht
      rcases List.mem_append.mp ht with h1 | h2
      · exact Or.inl (hcb1 t h1)
      · rcases List.mem_cons.mp h2 with rfl | h3
        · exact Or.inr h0
        · exact Or.inl (hcb2 t h3)
    exact addNodes_error_at_frame hsel havoid p fsa fsb dbad nid hframes htopb
      (hmixall p.top htop0)
      (fun d hd => ⟨(hfsa0 d hd).1, hmixall d (hfsa0 d hd).2⟩)
      (addNodesDoc_error_getInfo dbad hbadb hsel1 havoid1 hcb1 hg hthrow hqb
        hav hge)
  · intro p ts1 ts2 tbad C cb dnd nid g ev qb hbody hsel havoid hcb hg hgi hev
      hthrow hqb hav hge
    exact addNodes_error_at_top p nid
      (addNodesDoc_error_evalInfo p.top hbody hsel havoid hcb hg hgi hev
        hthrow hqb hav hge nid)
  · intro p fsa fsb dbad ts1 ts2 tbad C cb dnd nid g ev qb hframes hsel havoid
      hcb1 hcb2 hg hgi hev hthrow hqb htopb htop0 hfsa0 hbadb hge
    have hsel1 : WellFormedSelectors ts1 :=
      fun t ht => hsel t (List.mem_append_left _ ht)
    have havoid1 : AvoidingSelectors ts1 C :=
      fun t ht => havoid t (List.mem_append_left _ ht)
    have hav : InsertAvoiding qb C :=
      havoid tbad (List.mem_append_right _ (List.mem_cons_self _ _)) qb hqb
    have hmixall : ∀ (d : Document), visibleCount tbad d = 0 →
        ∀ t ∈ ts1 ++ tbad :: ts2, CbOkFor cb t ∨ visibleCount t d = 0 := by
      intro d h0 t ht
      rcases List.mem_append.mp ht with h1 | h2
      · exact Or.inl (hcb1 t h1)
      · rcases List.mem_cons.mp h2 with rfl | h3
        · exact Or.inr h0
        · exact Or.inl (hcb2 t h3)
    exact addNodes_error_at_frame hsel havoid p fsa fsb dbad nid hframes htopb
      (hmixall p.top htop0)
      (fun d hd => ⟨(hfsa0 d hd).1, hmixall d (hfsa0 d hd).2⟩)
      (addNodesDoc_error_evalInfo dbad hbadb hsel1 havoid1 hcb1 hg hgi hev
        hthrow hqb hav hge)
  · intro p t1 ts2 C cb dnd nid q1 hnb ht1 hcbt hav hge
    exact @addNodes_error_at_top α cb dnd C (t1 :: ts2) DomError.nullDeref
      (fun d' => d' = (insertStylesheet p.top nid).1) p nid
      ⟨(insertStylesheet p.top nid).1, 0, (insertStylesheet p.top nid).2,
        addNodesDoc_error_nobody p.top hnb ht1 hcbt hav hge nid, rfl⟩
  · intro p fsa fsb dbad t1 ts2 C cb dnd nid q1 hframes hsel havoid hcb htopb
      hfsab hnb ht1 hge
    have hav : InsertAvoiding q1 C := havoid t1 (List.mem_cons_self _ _) q1 ht1
    have hcbt : CbOkFor cb t1 := hcb t1 (List.mem_cons_self _ _)
    have hbadrun : ∀ n, ∃ d' c' n', addNodesDoc dbad (t1 :: ts2) C cb dnd n =
        (d', c', n', some DomError.nullDeref) ∧
        docClassCount C d' = docClassCount C dbad := by
      intro n
      exact ⟨(insertStylesheet dbad n).1, 0, (insertStylesheet dbad n).2,
        addNodesDoc_error_nobody dbad hnb ht1 hcbt hav hge n,
        insertStylesheet_classCount dbad n C⟩
    exact addNodes_error_at_frame hsel havoid p fsa fsb dbad nid hframes htopb
      (fun t ht => Or.inl (hcb t ht))
      (fun d hd => ⟨hfsab d hd, fun t ht => Or.inl (hcb t ht)⟩)
      hbadrun

theorem w5Cb_okAll : CbOkAll w5Cb [wTarget] := by
  intro t ht
  simp only [List.mem_singleton] at ht
  subst ht
  refine ⟨⟨_, rfl, fun d => ⟨(), rfl⟩⟩, ?_⟩
  intro ev hev
  simp [w5Cb] at hev

theorem w5CbEval_okAll : CbOkAll w5CbEval [wTarget] := by
  intro t ht
  simp only [List.mem_singleton] at ht
  subst ht
  refine ⟨⟨_, rfl, fun d => ⟨(), rfl⟩⟩, ?_⟩
  intro ev hev i
  have h : (fun (_ : Unit) (t : Target) =>
      if t.filter.isSome then Except.error DomError.callbackError
      else Except.ok ()) = ev := Option.some.inj hev
  rw [← h]
  rfl

theorem w5_wf : WellFormedSelectors ([wTarget] ++ w5Bad :: []) := by
  intro t ht
  rcases List.mem_append.mp ht with h | h
  · rw [List.mem_singleton] at h
    subst h
    exact ⟨_, rfl⟩
  · rcases List.mem_cons.mp h with h1 | h1
    · subst h1
      exact ⟨_, rfl⟩
    · exact absurd h1 (List.not_mem_nil t)

theorem w5_predAvoid (C : String) :
    InsertAvoiding (fun d => d.tag == "p") C :=
  ⟨fun _ => rfl, fun _ => rfl, fun _ _ => rfl⟩

theorem w5_avoid (C : String) :
    AvoidingSelectors ([wTarget] ++ w5Bad :: []) C := by
  intro t ht q hq
  rcases List.mem_append.mp ht with h | h
  · exact wTarget_avoid C t h q hq
  · rcases List.mem_cons.mp h with h1 | h1
    · subst h1
      have hsel : Selector.pred (fun d : ElemData => d.tag == "p") =
          Selector.pred q := hq
      injection hsel with hqq
      subst hqq
      exact w5_predAvoid C
    · exact absurd h1 (List.not_mem_nil t)

/-- Witness for C5: all seven scenarios at concrete inputs.  Malformed
selector on `wPage` (one overlay from the preceding target remains);
`getInfo` throwing on the filtered target, failing at the top of `wPage`
(again one overlay remains) and at the iframe document of `w5PageB`;
`evalInfo` throwing likewise at the top and at the iframe document; and a
missing body at the top (`w5NoBody` as top) and at the iframe document of
`w5PageC`. -/
theorem claim_C5_witness :
    ((addNodes wPage ([wTarget] ++ wBadTarget :: []) "mark" wCb false 100).2 =
        .error .syntaxError ∧
      docClassCount "mark"
        (addNodes wPage ([wTarget] ++ wBadTarget :: []) "mark" wCb false
          100).1.top = 1) ∧
    ((addNodes wPage ([wTarget] ++ w5Bad :: []) "mark" w5Cb false 100).2 =
        .error .callbackError ∧
      docClassCount "mark"
        (addNodes wPage ([wTarget] ++ w5Bad :: []) "mark" w5Cb false
          100).1.top = 1) ∧
    (addNodes w5PageB ([wTarget] ++ w5Bad :: []) "mark" w5Cb false 100).2 =
      .error .callbackError ∧
    (addNodes wPage ([wTarget] ++ w5Bad :: []) "mark" w5CbEval false 100).2 =
      .error .callbackError ∧
    (addNodes w5PageB ([wTarget] ++ w5Bad :: []) "mark" w5CbEval false
      100).2 = .error .callbackError ∧
    (addNodes (⟨w5NoBody, []⟩ : Page) [wTarget] "mark" wCb false 5).2 =
      .error .nullDeref ∧
    (addNodes w5PageC [wTarget] "mark" wCb false 5).2 = .error .nullDeref := by
  obtain ⟨p1, hres1, hfr1, hcnt1⟩ := (claim_C5_exceptions_abort Unit).1 wPage
    [wTarget] [] wBadTarget "mark" wCb false 100 (by decide) wTarget_wf
    (wTarget_avoid "mark") (wCb_ok [wTarget]) rfl
  obtain ⟨p2, hres2, hfr2, hcnt2⟩ := (claim_C5_exceptions_abort Unit).2.1
    wPage [wTarget] [] w5Bad "mark" w5Cb false 100 _ _ (by decide) wTarget_wf
    (wTarget_avoid "mark") w5Cb_okAll rfl (fun d => rfl) rfl
    (w5_predAvoid "mark") (by decide)
  obtain ⟨t3, f3, d3, hres3, hc3, hf3, hd3⟩ :=
    (claim_C5_exceptions_abort Unit).2.2.1 w5PageB [.error .nullDeref] []
      wFrameDoc [wTarget] [] w5Bad "mark" w5Cb false 100 _ _ rfl w5_wf
      (w5_avoid "mark") w5Cb_okAll (fun t ht => absurd ht (List.not_mem_nil t))
      rfl (fun d => rfl) rfl (by decide) (by decide)
      (by intro d hd; simp at hd) (by decide) (by decide)
  obtain ⟨p4, hres4, hfr4, hcnt4⟩ := (claim_C5_exceptions_abort Unit).2.2.2.1
    wPage [wTarget] [] w5Bad "mark" w5CbEval false 100 _ _ _ (by decide)
    wTarget_wf (wTarget_avoid "mark") w5CbEval_okAll rfl (fun d => ⟨(), rfl⟩)
    rfl (fun i => rfl) rfl (w5_predAvoid "mark") (by decide)
  obtain ⟨t5, f5, d5, hres5, hc5, hf5, hd5⟩ :=
    (claim_C5_exceptions_abort Unit).2.2.2.2.1 w5PageB [.error .nullDeref] []
      wFrameDoc [wTarget] [] w5Bad "mark" w5CbEval false 100 _ _ _ rfl w5_wf
      (w5_avoid "mark") w5CbEval_okAll
      (fun t ht => absurd ht (List.not_mem_nil t)) rfl (fun d => ⟨(), rfl⟩)
      rfl (fun i => rfl) rfl (by decide) (by decide)
      (by intro d hd; simp at hd) (by decide) (by decide)
  obtain ⟨p6, hres6, hfr6, htop6⟩ :=
    (claim_C5_exceptions_abort Unit).2.2.2.2.2.1 ⟨w5NoBody, []⟩ wTarget []
      "mark" wCb false 5 (fun d => d.tag == "p") rfl rfl
      (wCb_ok [wTarget] wTarget (List.mem_cons_self _ _)) (w5_predAvoid "mark")
      (by decide)
  obtain ⟨t7, f7, d7, hres7, hc7, hf7, hd7⟩ :=
    (claim_C5_exceptions_abort Unit).2.2.2.2.2.2 w5PageC [] [] w5NoBody
      wTarget [] "mark" wCb false 5 _ rfl wTarget_wf (wTarget_avoid "mark")
      (wCb_ok [wTarget]) (by decide)
      (fun d hd => absurd hd (List.not_mem_nil _)) rfl rfl (by decide)
  refine ⟨⟨?_, ?_⟩, ⟨?_, ?_⟩, ?_, ?_, ?_, ?_, ?_⟩
  · rw [hres1]
  · have h : docClassCount "mark" p1.top =
        docClassCount "mark" wPage.top + totVis [wTarget] wPage.top := hcnt1
    rw [hres1]
    dsimp only
    rw [h]
    decide
  · rw [hres2]
  · have h : docClassCount "mark" p2.top =
        docClassCount "mark" wPage.top + totVis [wTarget] wPage.top := hcnt2
    rw [hres2]
    dsimp only
    rw [h]
    decide
  · rw [hres3]
  · rw [hres4]
  · rw [hres5]
  · rw [hres6]
  · rw [hres7]

/-- Witness for C3 on the concrete page `wPage`: after adding `div.mark`
overlays, removing class `mark` raises no error and leaves zero `div.mark`
matches in every reachable document. -/
theorem claim_C3_witness :
    (removeNodes (addNodes wPage [wTarget] "mark" wCb false 100).1 "mark").2 =
      none ∧
    ∀ doc ∈ getAllDocuments
        (removeNodes (addNodes wPage [wTarget] "mark" wCb false 100).1
          "mark").1,
      doc.matchesOf (classSelector "mark") = [] := by
  obtain ⟨p1, n, hadd, hrem, hnil⟩ := claim_C3_remove_after_add wPage [wTarget]
    "mark" wCb false 100 (by decide) (by decide) (by decide) (by decide)
    wTarget_wf (wTarget_avoid "mark") (wCb_ok [wTarget])
  have hp1 : (addNodes wPage [wTarget] "mark" wCb false 100).1 = p1 := by
    rw [hadd]
  rw [hp1, hrem]
  exact ⟨rfl, hnil⟩
